import Mathlib

/-!
Verification of arduinoLatency (seeraven/arduinoLatency): latency arithmetic, statistics reducer,
series persistence, measurement campaigns, poller, serial configuration and command line of
`src/main.cpp`, and the event source of `src/kernel_module/gpiotiming_mod.c`, as a shallow
embedding.

* C++ `float` values are modelled exactly (IEEE-754 binary32, round to nearest, ties to even)
  by integer arithmetic, see `F32`.
* `uint64_t` timestamps are natural numbers; where the source can wrap, the embedding reduces
  modulo `2 ^ 64` explicitly.
* The serial channel, the clock and the file system are the environment: every run of a campaign
  takes the answers of the environment as an explicit script.
-/

namespace ArduinoLatency

/-! ## binary32 -/

/-- A finite binary32 value, given by its numeric value counted in units of `2 ^ (-149)`
(the smallest positive subnormal): the float `1.0f` is `2 ^ 149`, `2.5f` is `5 * 2 ^ 148`.
Every finite binary32 value is an integer number of such units, so comparison of floats is
comparison of integers. The two zeros `+0.0f` and `-0.0f` (which compare equal in C++, and
behave alike in sorting and in the sums) are both `0`; where the sign of a zero shows, in the
text written by `fprintf`, the value is taken in its stored form `StoredFloat`, which carries
the sign bit. NaN and the infinities are not values of the model. Every sample of the program
comes out of `getMilliseconds`, whose results are finite (`getMilliseconds_finite`). -/
abbrev F32 := Int

namespace F32

/-- Auxiliary for `log2`, recursion on the fuel. -/
def log2Aux : Nat → Nat → Nat
  | 0, _ => 0
  | fuel + 1, n => if n < 2 then 0 else log2Aux fuel (n / 2) + 1

/-- Floor of the binary logarithm (`0` at `0`); equals `Nat.log2` (`log2_eq`). The fuel `n` is
always enough. -/
def log2 (n : Nat) : Nat := log2Aux n n

/-- The number of units in `1.0f`. -/
def one : Nat := 2 ^ 149

/-- The integer nearest to `n / d`, ties to even. -/
def nearestEven (n d : Nat) : Nat :=
  let fl := n / d
  let r := n % d
  if 2 * r < d then fl else if d < 2 * r then fl + 1 else fl + fl % 2

/-- Rounding of the non-negative rational `n / d` (in units) to binary32: 24 significant bits,
to nearest, ties to even. `q` is the spacing of binary32 values around `n / d`: one unit below
`2 ^ 24` units (subnormals and the first binades), otherwise `2 ^ (e - 23)` for
`2 ^ e ≤ n / d < 2 ^ (e + 1)`. The exponent is not bounded above (no overflow to infinity):
the model is exact as long as results stay below `2 ^ 128`, i.e. below `2 ^ 277` units. -/
def roundNat (n d : Nat) : Nat :=
  let q := 2 ^ (log2 (n / d) - 23)
  nearestEven n (d * q) * q

/-- Rounding of the rational `n / d` (in units) to binary32; rounding is symmetric in the sign. -/
def round (n : Int) (d : Nat) : F32 :=
  if n < 0 then -((roundNat n.natAbs d : Nat) : Int) else ((roundNat n.natAbs d : Nat) : Int)

/-- Binary32 addition `a + b`: the exact sum, rounded. -/
def add (a b : F32) : F32 := round (a + b) 1

/-- Binary32 division `a / b` for `b ≠ 0`: the exact quotient `a / b`, which is
`a * 2 ^ 149 / b` units, rounded. (Division by zero yields an infinity or NaN in C++ and is
outside the model.) -/
def div (a b : F32) : F32 := round (a * b.sign * ((one : Nat) : Int)) b.natAbs

/-- Conversion of an unsigned integer to binary32, `float(n)`: the value `n`, rounded. -/
def ofNat (n : Nat) : F32 := round ((n * one : Nat) : Int) 1

/-- The literal `1000000.0f` (exactly representable, `10 ^ 6 < 2 ^ 24`). -/
def million : F32 := ((1000000 * one : Nat) : Int)

/-- The integer `x` (in units) is a binary32 value: its magnitude has at most 24 significant
bits, `m * 2 ^ k` with `m < 2 ^ 24`. -/
def IsValue (x : F32) : Prop := ∃ m k : Nat, m < 2 ^ 24 ∧ x.natAbs = m * 2 ^ k

/-- The rational number a binary32 value stands for. -/
def toRat (x : F32) : ℚ := (x : ℚ) / 2 ^ 149

end F32

/-! ## timestamps and latency computation (main.cpp 317-372) -/

/-- The C `struct timespec`: signed seconds and nanoseconds. -/
structure timespec where
  tv_sec : Int
  tv_nsec : Int
deriving DecidableEq, Repr

/-- The conversion `uint64_t(x)` of a signed integer: reduction modulo `2 ^ 64`. -/
def toUInt64 (x : Int) : Nat := (x % 2 ^ 64).toNat

/-- The macro `GET_NANOSECONDS`:
`uint64_t(tv_nsec) + uint64_t(tv_sec) * uint64_t(1000000000)` in 64-bit unsigned arithmetic. -/
def GET_NANOSECONDS (timespecStruct : timespec) : Nat :=
  (toUInt64 timespecStruct.tv_nsec + toUInt64 timespecStruct.tv_sec * 1000000000) % 2 ^ 64

/-- The overload `getMilliseconds(const uint64_t, const uint64_t)`; both arguments are
`uint64_t`, so the differences do not wrap. -/
def getMilliseconds (f_startNs_ui f_endNs_ui : Nat) : F32 :=
  if f_endNs_ui > f_startNs_ui then
    let diffNs_ui := f_endNs_ui - f_startNs_ui
    F32.div (F32.ofNat diffNs_ui) F32.million
  else
    let diffNs_ui := f_startNs_ui - f_endNs_ui
    F32.div (F32.ofNat diffNs_ui) (-F32.million)

/-- The overload `getMilliseconds(struct timespec&, struct timespec&)`. -/
def getMilliseconds_ts_ts (fr_startNs_ui fr_endNs_ui : timespec) : F32 :=
  let startNs_ui := GET_NANOSECONDS fr_startNs_ui
  let endNs_ui := GET_NANOSECONDS fr_endNs_ui
  if endNs_ui > startNs_ui then
    let diffNs_ui := endNs_ui - startNs_ui
    F32.div (F32.ofNat diffNs_ui) F32.million
  else
    let diffNs_ui := startNs_ui - endNs_ui
    F32.div (F32.ofNat diffNs_ui) (-F32.million)

/-- The overload `getMilliseconds(struct timespec&, const uint64_t)`. -/
def getMilliseconds_ts_u64 (fr_startNs_ui : timespec) (f_endNs_ui : Nat) : F32 :=
  let startNs_ui := GET_NANOSECONDS fr_startNs_ui
  if f_endNs_ui > startNs_ui then
    let diffNs_ui := f_endNs_ui - startNs_ui
    F32.div (F32.ofNat diffNs_ui) F32.million
  else
    let diffNs_ui := startNs_ui - f_endNs_ui
    F32.div (F32.ofNat diffNs_ui) (-F32.million)

/-! ## statistics reducer (main.cpp 403-425) -/

/-- The struct `TimeAnalysis`. -/
structure TimeAnalysis where
  mean_f : F32
  min_f : F32
  max_f : F32
  median_f : F32
deriving DecidableEq, Repr

/-- An element access outside the bounds of a `std::vector` (undefined behaviour in C++):
`front()` or `back()` of an empty vector, or `operator[]` with an index not below the size. -/
inductive OutOfBounds where
  | front
  | back
  | index (i size : Nat)
deriving DecidableEq, Repr

/-- The call `std::sort(begin, end)` on a vector of floats: the elements in ascending order.
Values of `F32` are linearly ordered, so the ascending arrangement of the elements is unique and
every sorting algorithm returns it (`sort_unique`). -/
def sort (v : List F32) : List F32 := List.insertionSort (fun a b => a ≤ b) v

/-- The member `std::vector::front()`. -/
def front (v : List F32) : Except OutOfBounds F32 :=
  match v.head? with
  | some x => Except.ok x
  | none => Except.error OutOfBounds.front

/-- The member `std::vector::back()`. -/
def back (v : List F32) : Except OutOfBounds F32 :=
  match v.getLast? with
  | some x => Except.ok x
  | none => Except.error OutOfBounds.back

/-- The member `std::vector::operator[]`. -/
def subscript (v : List F32) (i : Nat) : Except OutOfBounds F32 :=
  match v[i]? with
  | some x => Except.ok x
  | none => Except.error (OutOfBounds.index i v.length)

/-- The function `calculateStatistics(TimeSeries_t& fr_timeSeries, TimeAnalysis& fr_analysis)`.
The series is passed by non-const reference and sorted in place, so the result carries the
series as the caller finds it after the call, next to the analysis. The running sum goes over
the sorted series, starting from `0.0f`. -/
def calculateStatistics (fr_timeSeries : List F32) :
    Except OutOfBounds (List F32 × TimeAnalysis) := do
  let fr_timeSeries := sort fr_timeSeries
  let min_f ← front fr_timeSeries
  let max_f ← back fr_timeSeries
  let median_f ← subscript fr_timeSeries (fr_timeSeries.length / 2)
  let sum_f := fr_timeSeries.foldl F32.add 0
  let mean_f := F32.div sum_f (F32.ofNat fr_timeSeries.length)
  pure (fr_timeSeries, TimeAnalysis.mk mean_f min_f max_f median_f)

/-! ## series persistence (main.cpp 427-438) -/

/-- One decimal digit as a character. -/
def digitChar : Nat → Char
  | 0 => '0' | 1 => '1' | 2 => '2' | 3 => '3' | 4 => '4'
  | 5 => '5' | 6 => '6' | 7 => '7' | 8 => '8' | _ => '9'

/-- Decimal digits of `n`, most significant first, in front of `acc`; recursion on the fuel. -/
def decimalAux : Nat → Nat → List Char → List Char
  | 0, _, acc => acc
  | fuel + 1, n, acc =>
    if n < 10 then digitChar n :: acc else decimalAux fuel (n / 10) (digitChar (n % 10) :: acc)

/-- Decimal digits of `n` (at least one digit). The fuel `n + 1` is always enough. -/
def decimal (n : Nat) : List Char := decimalAux (n + 1) n []

/-- The six digits of `n % 10 ^ 6`, with leading zeros. -/
def sixDigits (n : Nat) : List Char :=
  [digitChar (n / 100000 % 10), digitChar (n / 10000 % 10), digitChar (n / 1000 % 10),
   digitChar (n / 100 % 10), digitChar (n / 10 % 10), digitChar (n % 10)]

/-- A finite `float` as it is stored in a series, sign bit included: `signbit` is the sign bit,
`magnitude` the absolute value in units of `2 ^ (-149)`. The value `-0.0f` is
`StoredFloat.mk true 0`, the value `+0.0f` is `StoredFloat.mk false 0`. -/
structure StoredFloat where
  signbit : Bool
  magnitude : Nat
deriving DecidableEq, Repr

/-- The stored form of a sample of the program. Every sample is a result of `getMilliseconds`:
for `end > start` it is positive, and for `end <= start` it is `float(diff) / -1000000.0f`, whose
sign bit is set, also when `diff` is `0` and the result is `-0.0f`. So the sign bit of a sample
is set exactly when its value is not positive (`stored_getMilliseconds`); the program never
records `+0.0f`. -/
def F32.stored (x : F32) : StoredFloat := StoredFloat.mk (decide (x ≤ 0)) x.natAbs

/-- The conversion `%.6f` of `printf` (glibc) for a finite value: the exact value rounded to six
fractional digits (to nearest, ties to even), in fixed notation, with a minus sign when the sign
bit is set (also for `-0.0f` and for a negative value that rounds to zero). -/
def printf_6f (x : StoredFloat) : String :=
  let scaled := F32.nearestEven (x.magnitude * 10 ^ 6) F32.one
  String.mk ((if x.signbit then ['-'] else []) ++ decimal (scaled / 10 ^ 6) ++
    '.' :: sixDigits scaled)

/-- The function `saveTimeSeries`. `file_p` tells whether `fopen` returned a stream; the result is
the sequence of lines written to the file (each `fprintf` ends its line with a newline), or `none`
when no file is written. -/
def saveTimeSeries (fr_timeSeries : List StoredFloat) (file_p : Bool) : Option (List String) :=
  if file_p then
    some ("# Time series data. Unit is milliseconds." :: fr_timeSeries.map printf_6f)
  else
    none

/-! ## interrupt-latency campaign (main.cpp 511-564) -/

/-- What the environment answers in one iteration of the loop of `determineInterruptLatency`:
the two clock readings around `digitalWrite(GPIO_INTTEST_OUT, LOW)` and the interrupt time stamp
found in `g_timeInterrupt_ui` once the wait for the interrupt is over (lines 543 and 544 read
it one after the other and find the same value). -/
structure InterruptIter where
  timeBeforeDigitalWrite : timespec
  timeAfterDigitalWrite : timespec
  g_timeInterrupt_ui : Nat
deriving DecidableEq, Repr

/-- What `determineInterruptLatency` prints and writes. -/
structure InterruptReport where
  analysis1 : TimeAnalysis
  analysis2 : TimeAnalysis
  digitalWriteStart_to_interrupt : Option (List String)
  digitalWriteEnd_to_interrupt : Option (List String)
deriving DecidableEq, Repr

/-- The loop of `determineInterruptLatency` (lines 527-551): the two series after
`f_numLoops_ui` iterations, iteration `i` appending one sample to each. -/
def interruptLoop (env : Nat → InterruptIter) (f_numLoops_ui : Nat) : List F32 × List F32 :=
  (List.range f_numLoops_ui).foldl
    (fun s i =>
      (s.1 ++ [getMilliseconds_ts_u64 (env i).timeBeforeDigitalWrite (env i).g_timeInterrupt_ui],
       s.2 ++ [getMilliseconds_ts_u64 (env i).timeAfterDigitalWrite (env i).g_timeInterrupt_ui]))
    ([], [])

/-- The function `determineInterruptLatency` for a run in which every wait for the interrupt
ends. `fopen` tells for each file name whether the file can be opened for writing. -/
def determineInterruptLatency (env : Nat → InterruptIter) (fopen : String → Bool)
    (f_numLoops_ui : Nat) : Except OutOfBounds InterruptReport := do
  let (timeToInterrupt1, timeToInterrupt2) := interruptLoop env f_numLoops_ui
  let (timeToInterrupt1, analysis1) ← calculateStatistics timeToInterrupt1
  let (timeToInterrupt2, analysis2) ← calculateStatistics timeToInterrupt2
  pure (InterruptReport.mk analysis1 analysis2
    (saveTimeSeries (timeToInterrupt1.map F32.stored) (fopen "digitalWriteStart_to_interrupt.gpd"))
    (saveTimeSeries (timeToInterrupt2.map F32.stored) (fopen "digitalWriteEnd_to_interrupt.gpd")))

/-! ## single-byte round trip and timed campaign (main.cpp 375-400, 780-863) -/

/-- What the environment answers in one iteration of the timed campaign: the return values of
the one-byte `write` and `read`, the byte `read` stored, the three clock readings of
`timeWriteRead`, and the interrupt time stamp found in `g_timeInterrupt_ui` when line 819 reads
it. -/
structure TimedIter where
  written_i : Int
  read_i : Int
  readChar_ui : Nat
  timeBeforeWrite : timespec
  timeAfterWrite : timespec
  timeAfterRead : timespec
  g_timeInterrupt_ui : Nat
deriving DecidableEq, Repr

/-- The function `timeWriteRead`: `some` of the three time stamps (before write, after write,
after read) when it returns `true`, `none` when it returns `false`. -/
def timeWriteRead (env : TimedIter) (f_dataByte_ui : Nat) : Option (Nat × Nat × Nat) :=
  if env.written_i ≠ 1 then none
  else if env.read_i ≠ 1 then none
  else if f_dataByte_ui = env.readChar_ui then
    some (GET_NANOSECONDS env.timeBeforeWrite, GET_NANOSECONDS env.timeAfterWrite,
      GET_NANOSECONDS env.timeAfterRead)
  else none

/-- The four series of the timed campaign. -/
structure TimedSeries where
  timeToInterrupt : List F32
  timeOfWrite : List F32
  timeToRead : List F32
  timeTotal : List F32
deriving DecidableEq, Repr

/-- The loop of the timed campaign (lines 799-834), from iteration `i` on, with `fuel` iterations
left. `paired` is the build with an event source (`ON_RASPBERRY_PI` or `ON_ODROID_XU4`).
`Except.error (i, s)` is the `return 30` in iteration `i`, with the series `s` as they are at
that moment. -/
def timedLoop (paired : Bool) (env : Nat → TimedIter) :
    Nat → Nat → TimedSeries → Except (Nat × TimedSeries) TimedSeries
  | 0, _, s => Except.ok s
  | fuel + 1, i, s =>
    let writtenChar_ui := i % 256
    match timeWriteRead (env i) writtenChar_ui with
    | none => Except.error (i, s)
    | some (timeBeforeWrite_ui, timeAfterWrite_ui, timeAfterRead_ui) =>
      let timeToInterrupt :=
        if paired ∧ 0 < i ∧ writtenChar_ui % 2 = 0 then
          s.timeToInterrupt ++ [getMilliseconds timeBeforeWrite_ui (env i).g_timeInterrupt_ui]
        else s.timeToInterrupt
      timedLoop paired env fuel (i + 1)
        (TimedSeries.mk timeToInterrupt
          (s.timeOfWrite ++ [getMilliseconds timeBeforeWrite_ui timeAfterWrite_ui])
          (s.timeToRead ++ [getMilliseconds timeAfterWrite_ui timeAfterRead_ui])
          (s.timeTotal ++ [getMilliseconds timeBeforeWrite_ui timeAfterRead_ui]))

/-- What the timed campaign prints and writes when its loop runs to the end. -/
structure TimedReport where
  timeToInterruptAnalysis : Option TimeAnalysis
  timeOfWriteAnalysis : TimeAnalysis
  timeToReadAnalysis : TimeAnalysis
  timeTotalAnalysis : TimeAnalysis
  startWrite_to_interrupt : Option (List String)
  startWrite_to_endWrite : Option (List String)
  endWrite_to_endRead : Option (List String)
  startWrite_to_endRead : Option (List String)
deriving DecidableEq, Repr

/-- How the timed campaign ends: `return 30` in loop `i`, or the report. -/
inductive TimedOutcome where
  | failed (loop : Nat)
  | finished (report : TimedReport)
deriving DecidableEq, Repr

/-- The timed campaign of `main` (the block under `performedTimedSerialTest_b`). -/
def timedSerialTest (paired : Bool) (env : Nat → TimedIter) (fopen : String → Bool)
    (numTimedSerialLoops_ui : Nat) : Except OutOfBounds TimedOutcome :=
  match timedLoop paired env numTimedSerialLoops_ui 0 (TimedSeries.mk [] [] [] []) with
  | Except.error (i, _) => pure (TimedOutcome.failed i)
  | Except.ok s => do
    let interrupt ←
      if paired then do
        let (timeToInterrupt, timeToInterruptAnalysis) ← calculateStatistics s.timeToInterrupt
        pure (some timeToInterruptAnalysis,
          saveTimeSeries (timeToInterrupt.map F32.stored) (fopen "startWrite_to_interrupt.gpd"))
      else pure (none, none)
    let (timeOfWrite, timeOfWriteAnalysis) ← calculateStatistics s.timeOfWrite
    let (timeToRead, timeToReadAnalysis) ← calculateStatistics s.timeToRead
    let (timeTotal, timeTotalAnalysis) ← calculateStatistics s.timeTotal
    pure (TimedOutcome.finished (TimedReport.mk interrupt.1
      timeOfWriteAnalysis timeToReadAnalysis timeTotalAnalysis interrupt.2
      (saveTimeSeries (timeOfWrite.map F32.stored) (fopen "startWrite_to_endWrite.gpd"))
      (saveTimeSeries (timeToRead.map F32.stored) (fopen "endWrite_to_endRead.gpd"))
      (saveTimeSeries (timeTotal.map F32.stored) (fopen "startWrite_to_endRead.gpd"))))

/-! ## bulk campaign (main.cpp 285-299, 741-778) -/

/-- What the channel answers in one iteration of the bulk loop: the return values of `write` and
`read`, and the content of `readBuffer_p` after the `read` call. -/
structure BulkIter where
  written_i : Int
  read_i : Int
  readBuffer : List Nat
deriving DecidableEq, Repr

/-- A call on the serial channel: `write` with the bytes of the buffer, or `read` with the
number of bytes asked for. -/
inductive ChannelOp where
  | write (bytes : List Nat)
  | read (count : Nat)
deriving DecidableEq, Repr

/-- The functions `writeChars` and `readChars`: the transfer counts as done when the return value
of the system call equals the number of bytes asked for. -/
def transferred (count_i : Int) (f_numChars_ui : Nat) : Bool := count_i = (f_numChars_ui : Int)

/-- The loop of the bulk campaign (lines 749-774), from iteration `i` on, with `fuel` iterations
left; `log` lists the channel calls made so far. The result is the exit status of `main` when the
loop returns (`20`, `21` or `22`), or `none` when the loop runs to its end, and the calls made. -/
def bulkLoop (numBytes_ui : Nat) (chan : Nat → BulkIter) :
    Nat → Nat → List ChannelOp → Option Nat × List ChannelOp
  | 0, _, log => (none, log)
  | fuel + 1, i, log =>
    let writtenChar_ui := i % 256
    let writeBuffer := List.replicate numBytes_ui writtenChar_ui
    let log := log ++ [ChannelOp.write writeBuffer]
    if ¬ transferred (chan i).written_i numBytes_ui then (some 20, log)
    else
      let log := log ++ [ChannelOp.read numBytes_ui]
      if ¬ transferred (chan i).read_i numBytes_ui then (some 21, log)
      else if some writtenChar_ui ≠ (chan i).readBuffer[0]? then (some 22, log)
      else bulkLoop numBytes_ui chan fuel (i + 1) log

/-- How the bulk campaign ends: `main` returns with an exit status, or the loop is done and the
average time per iteration (in milliseconds) is printed. -/
inductive BulkOutcome where
  | returned (status : Nat)
  | average (ms : F32)
deriving DecidableEq, Repr

/-- The bulk campaign of `main` (the block under `performBulkSerialTest_b`): outcome and channel
calls. `startNs_ui` and `endNs_ui` are the two readings of `getTimeStampNs`. -/
def bulkSerialTest (numBytes_ui : Nat) (chan : Nat → BulkIter) (startNs_ui endNs_ui : Nat) :
    BulkOutcome × List ChannelOp :=
  let numLoops_ui := 1200
  match bulkLoop numBytes_ui chan numLoops_ui 0 [] with
  | (some status, log) => (BulkOutcome.returned status, log)
  | (none, log) =>
    (BulkOutcome.average (F32.div (getMilliseconds startNs_ui endNs_ui) (F32.ofNat numLoops_ui)),
      log)

/-- The channel calls of `fuel` iterations of the bulk loop, from iteration `i` on, each of which
gets as far as its read: a write of `numBytes_ui` bytes `i % 256`, then a read of `numBytes_ui`
bytes, per iteration. -/
def bulkCalls (numBytes_ui : Nat) : Nat → Nat → List ChannelOp
  | 0, _ => []
  | fuel + 1, i =>
    ChannelOp.write (List.replicate numBytes_ui (i % 256)) :: ChannelOp.read numBytes_ui ::
      bulkCalls numBytes_ui fuel (i + 1)

/-- The three checks of iteration `i` pass. -/
def BulkPass (numBytes_ui : Nat) (chan : Nat → BulkIter) (i : Nat) : Prop :=
  (chan i).written_i = numBytes_ui ∧ (chan i).read_i = numBytes_ui ∧
    (chan i).readBuffer[0]? = some (i % 256)


/-! ## event-correlation poller (main.cpp 160-182, 452-473) -/

/-- The four variables of the kernel module: a `u32` counter and a `u64` time stamp per pin. -/
structure GpioTiming where
  inttest_counter_ui : Nat
  inttest_timestamp_ui : Nat
  arduino_counter_ui : Nat
  arduino_timestamp_ui : Nat
deriving DecidableEq, Repr

/-- A store to one of the four variables, with the value stored. -/
inductive Store where
  | inttest_counter (v : Nat)
  | inttest_timestamp (v : Nat)
  | arduino_counter (v : Nat)
  | arduino_timestamp (v : Nat)
deriving DecidableEq, Repr

/-- The handler `gpiotiming_inttest_irq_handler`; `ktime_get_raw_ns` is the clock value the call
of that name returns. The result is the state after the handler and its stores in program
order. -/
def gpiotiming_inttest_irq_handler (ktime_get_raw_ns : Nat) (st : GpioTiming) :
    GpioTiming × List Store :=
  let inttest_timestamp_ui := ktime_get_raw_ns
  let inttest_counter_ui := (st.inttest_counter_ui + 1) % 2 ^ 32
  (GpioTiming.mk inttest_counter_ui inttest_timestamp_ui st.arduino_counter_ui
      st.arduino_timestamp_ui,
    [Store.inttest_timestamp inttest_timestamp_ui, Store.inttest_counter inttest_counter_ui])

/-- The handler `gpiotiming_arduino_irq_handler`. -/
def gpiotiming_arduino_irq_handler (ktime_get_raw_ns : Nat) (st : GpioTiming) :
    GpioTiming × List Store :=
  let arduino_timestamp_ui := ktime_get_raw_ns
  let arduino_counter_ui := (st.arduino_counter_ui + 1) % 2 ^ 32
  (GpioTiming.mk st.inttest_counter_ui st.inttest_timestamp_ui arduino_counter_ui
      arduino_timestamp_ui,
    [Store.arduino_timestamp arduino_timestamp_ui, Store.arduino_counter arduino_counter_ui])

/-- The function `gpiotiming_init`, as far as it touches the four variables: both counters are
set to `0` and both time stamps to the clock (`now1`, `now2` are the two clock values). -/
def gpiotiming_init (now1 now2 : Nat) : GpioTiming :=
  GpioTiming.mk 0 now1 0 now2

/-- A falling edge on one of the two pins, with the clock value its handler reads. -/
inductive Irq where
  | inttest (ktime_get_raw_ns : Nat)
  | arduino (ktime_get_raw_ns : Nat)
deriving DecidableEq, Repr

/-- The kernel calls the handler registered for the pin (`request_irq` in
`gpiotiming_gpio_init`). -/
def dispatch (st : GpioTiming) (irq : Irq) : GpioTiming :=
  match irq with
  | Irq.inttest now => (gpiotiming_inttest_irq_handler now st).1
  | Irq.arduino now => (gpiotiming_arduino_irq_handler now st).1

/-! ## serial port configuration (main.cpp 223-282) -/

/-- The part of `struct termios` that `initializeSerialPort` sets by plain assignment of values
the source gives: output and local flags and the two read parameters. The elements of `c_cc`
have the type `cc_t`, an unsigned 8-bit integer. -/
structure termios where
  c_oflag : Nat
  c_lflag : Nat
  c_cc_VTIME : Nat
  c_cc_VMIN : Nat
deriving DecidableEq, Repr

/-- The function `initializeSerialPort`: the configuration handed to `tcsetattr` and the return
value. `tcsetattr_rc` and `fcntl_rc` are the return values of `tcsetattr` and of
`fcntl(F_SETFL)`. The assignment of the `uint32_t` `f_numBytes_ui` to `c_cc[VMIN]` converts to
`cc_t`, that is modulo `2 ^ 8`. -/
def initializeSerialPort (tcsetattr_rc fcntl_rc : Int) (f_numBytes_ui : Nat) : termios × Bool :=
  let newtio := termios.mk 0 0 0 (f_numBytes_ui % 2 ^ 8)
  if tcsetattr_rc ≠ 0 then (newtio, false)
  else if fcntl_rc < 0 then (newtio, false)
  else (newtio, true)

/-! ## command line (main.cpp 581-662) -/

/-- The variables of `main` the command line sets. -/
structure Options where
  serialDevice : String
  ftdiTgtLatency_i : Int
  numBytes_ui : Nat
  performInterruptLatencyTest_b : Bool
  numInterruptLoops_ui : Nat
  performBulkSerialTest_b : Bool
  performedTimedSerialTest_b : Bool
  numTimedSerialLoops_ui : Nat
deriving DecidableEq, Repr

/-- The initial values of the variables (lines 583-590). -/
def Options.initial : Options :=
  Options.mk "" 1 1 true 10000 true true (20 * 60)

/-- The conversion `uint32_t(x)` of an `int`: reduction modulo `2 ^ 32`. -/
def toUInt32 (x : Int) : Nat := (x % 2 ^ 32).toNat

/-- The argument loop of `main` (lines 593-662) on the arguments after the program name.
`atoi` is the C library function. The result is `none` when `usage` is called (which exits). -/
def parseArgs (atoi : String → Int) : List String → Options → Option Options
  | [], o => some o
  | arg :: rest, o =>
    if arg = "-h" ∨ arg = "--help" then none
    else if arg = "-l" ∨ arg = "--latency" then
      match rest with
      | v :: rest => parseArgs atoi rest
          (Options.mk o.serialDevice (atoi v) o.numBytes_ui o.performInterruptLatencyTest_b
            o.numInterruptLoops_ui o.performBulkSerialTest_b o.performedTimedSerialTest_b
            o.numTimedSerialLoops_ui)
      | [] => none
    else if arg = "-s" ∨ arg = "--size" then
      match rest with
      | v :: rest => parseArgs atoi rest
          (Options.mk o.serialDevice o.ftdiTgtLatency_i (toUInt32 (atoi v))
            o.performInterruptLatencyTest_b o.numInterruptLoops_ui o.performBulkSerialTest_b
            o.performedTimedSerialTest_b o.numTimedSerialLoops_ui)
      | [] => none
    else if arg = "-i" ∨ arg = "--interrupt" then
      parseArgs atoi rest
        (Options.mk o.serialDevice o.ftdiTgtLatency_i o.numBytes_ui true
          o.numInterruptLoops_ui false false o.numTimedSerialLoops_ui)
    else if arg = "--iloops" then
      match rest with
      | v :: rest => parseArgs atoi rest
          (Options.mk o.serialDevice o.ftdiTgtLatency_i o.numBytes_ui
            o.performInterruptLatencyTest_b (toUInt32 (atoi v)) o.performBulkSerialTest_b
            o.performedTimedSerialTest_b o.numTimedSerialLoops_ui)
      | [] => none
    else if arg = "-b" ∨ arg = "--bulk" then
      parseArgs atoi rest
        (Options.mk o.serialDevice o.ftdiTgtLatency_i o.numBytes_ui false
          o.numInterruptLoops_ui true false o.numTimedSerialLoops_ui)
    else if arg = "-t" ∨ arg = "--timed" then
      parseArgs atoi rest
        (Options.mk o.serialDevice o.ftdiTgtLatency_i o.numBytes_ui false
          o.numInterruptLoops_ui false true o.numTimedSerialLoops_ui)
    else if arg = "--tloops" then
      match rest with
      | v :: rest => parseArgs atoi rest
          (Options.mk o.serialDevice o.ftdiTgtLatency_i o.numBytes_ui
            o.performInterruptLatencyTest_b o.numInterruptLoops_ui o.performBulkSerialTest_b
            o.performedTimedSerialTest_b (toUInt32 (atoi v)))
      | [] => none
    else if arg.data.head? = some '-' then none
    else if o.serialDevice = "" then
      parseArgs atoi rest
        (Options.mk arg o.ftdiTgtLatency_i o.numBytes_ui o.performInterruptLatencyTest_b
          o.numInterruptLoops_ui o.performBulkSerialTest_b o.performedTimedSerialTest_b
          o.numTimedSerialLoops_ui)
    else none

/-- The three campaigns. -/
inductive Campaign where
  | interrupt
  | bulk
  | timed
deriving DecidableEq, Repr

/-- The campaign a mode flag names. -/
def modeFlag (arg : String) : Option Campaign :=
  if arg = "-i" ∨ arg = "--interrupt" then some Campaign.interrupt
  else if arg = "-b" ∨ arg = "--bulk" then some Campaign.bulk
  else if arg = "-t" ∨ arg = "--timed" then some Campaign.timed
  else none

/-- The options that take the next argument as their value. -/
def takesValue (arg : String) : Bool :=
  arg = "-l" ∨ arg = "--latency" ∨ arg = "-s" ∨ arg = "--size" ∨ arg = "--iloops" ∨
    arg = "--tloops"

/-- The mode flags of an argument list that stand in option position: an argument that
directly follows an option taking a value is that value and is skipped. -/
def modeFlagsParsed : List String → List Campaign
  | [] => []
  | arg :: rest =>
    if takesValue arg then
      match rest with
      | _ :: rest => modeFlagsParsed rest
      | [] => []
    else
      match modeFlag arg with
      | some c => c :: modeFlagsParsed rest
      | none => modeFlagsParsed rest

/-- The campaigns a parsed command line enables, as the triple of the three flags
(interrupt, bulk, timed). -/
def Options.enabled (o : Options) : Bool × Bool × Bool :=
  (o.performInterruptLatencyTest_b, o.performBulkSerialTest_b, o.performedTimedSerialTest_b)

/-- Exactly the campaign `c` is enabled. -/
def only (c : Campaign) : Bool × Bool × Bool :=
  match c with
  | Campaign.interrupt => (true, false, false)
  | Campaign.bulk => (false, true, false)
  | Campaign.timed => (false, false, true)

/-! # Theorems -/

/-! ## binary32 rounding -/

namespace F32

theorem log2Aux_spec (fuel : Nat) : ∀ n : Nat, n ≤ fuel → n ≠ 0 →
    2 ^ log2Aux fuel n ≤ n ∧ n < 2 ^ (log2Aux fuel n + 1) := by
  induction fuel with
  | zero => intro n h h0; omega
  | succ f ih =>
    intro n h h0
    unfold log2Aux
    by_cases h2 : n < 2
    · simp only [h2, if_true]
      omega
    · simp only [h2, if_false]
      have hle : n / 2 ≤ f := by omega
      have hne : n / 2 ≠ 0 := by omega
      obtain ⟨h1, h3⟩ := ih (n / 2) hle hne
      constructor
      · rw [pow_succ]; omega
      · rw [pow_succ]; omega

theorem log2_spec (n : Nat) (h0 : n ≠ 0) : 2 ^ log2 n ≤ n ∧ n < 2 ^ (log2 n + 1) :=
  log2Aux_spec n n le_rfl h0

theorem log2_zero : log2 0 = 0 := rfl

theorem log2_eq (n : Nat) : log2 n = Nat.log2 n := by
  by_cases h0 : n = 0
  · subst h0; simp [log2_zero, Nat.log2]
  · obtain ⟨h1, h2⟩ := log2_spec n h0
    have h3 : Nat.log2 n < log2 n + 1 := (Nat.log2_lt h0).2 h2
    have h4 : ¬ Nat.log2 n < log2 n := by
      intro h
      have := (Nat.log2_lt h0).1 h
      omega
    omega

theorem log2_mono {a b : Nat} (h : a ≤ b) : log2 a ≤ log2 b := by
  by_cases ha : a = 0
  · subst ha; simp [log2_zero]
  · have hb : b ≠ 0 := by omega
    obtain ⟨h1, _⟩ := log2_spec a ha
    obtain ⟨_, h4⟩ := log2_spec b hb
    have : 2 ^ log2 a < 2 ^ (log2 b + 1) := by omega
    have := (Nat.pow_lt_pow_iff_right (by norm_num : 1 < 2)).1 this
    omega

theorem floor_mono {n d n' d' : Nat} (hd : 0 < d) (hd' : 0 < d') (h : n * d' ≤ n' * d) :
    n / d ≤ n' / d' := by
  rw [Nat.le_div_iff_mul_le hd']
  have h1 : n / d * d ≤ n := Nat.div_mul_le_self n d
  have h2 : n / d * d' * d ≤ n' * d := by
    calc n / d * d' * d = n / d * d * d' := by ring
      _ ≤ n * d' := Nat.mul_le_mul_right _ h1
      _ ≤ n' * d := h
  exact Nat.le_of_mul_le_mul_right h2 hd

theorem nearestEven_ge_floor (n d : Nat) : n / d ≤ nearestEven n d := by
  unfold nearestEven
  simp only
  split_ifs <;> omega

theorem nearestEven_le_floor_succ (n d : Nat) : nearestEven n d ≤ n / d + 1 := by
  unfold nearestEven
  simp only
  split_ifs <;> omega

theorem nearestEven_mul (m d : Nat) (hd : 0 < d) : nearestEven (m * d) d = m := by
  unfold nearestEven
  simp only [Nat.mul_mod_left, Nat.mul_div_cancel _ hd]
  simp [hd]

theorem nearestEven_mono {n d n' d' : Nat} (hd : 0 < d) (hd' : 0 < d') (h : n * d' ≤ n' * d) :
    nearestEven n d ≤ nearestEven n' d' := by
  have hf : n / d ≤ n' / d' := floor_mono hd hd' h
  rcases Nat.lt_or_ge (n / d) (n' / d') with hlt | hge
  · calc nearestEven n d ≤ n / d + 1 := nearestEven_le_floor_succ n d
      _ ≤ n' / d' := hlt
      _ ≤ nearestEven n' d' := nearestEven_ge_floor n' d'
  · have hfe : n / d = n' / d' := le_antisymm hf hge
    have e1 : d * (n / d) + n % d = n := Nat.div_add_mod n d
    have e2 : d' * (n' / d') + n' % d' = n' := Nat.div_add_mod n' d'
    -- remainders are ordered
    have hr : n % d * d' ≤ n' % d' * d := by
      have : (d * (n / d) + n % d) * d' ≤ (d' * (n' / d') + n' % d') * d := by
        rw [e1, e2]; exact h
      rw [hfe] at this
      nlinarith
    unfold nearestEven
    simp only
    rw [← hfe]
    by_cases c1 : 2 * (n % d) < d
    · simp only [c1, if_true]
      split_ifs <;> omega
    · simp only [c1, if_false]
      by_cases c2 : d < 2 * (n % d)
      · simp only [c2, if_true]
        have c2' : d' < 2 * (n' % d') := by
          by_contra hc
          have hc' : 2 * (n' % d') ≤ d' := not_lt.mp hc
          nlinarith
        have c1' : ¬ 2 * (n' % d') < d' := by omega
        simp [c1', c2']
      · simp only [c2, if_false]
        have heq : 2 * (n % d) = d := by omega
        have c1' : ¬ 2 * (n' % d') < d' := by
          intro hc
          nlinarith
        simp only [c1', if_false]
        split_ifs <;> omega

theorem nearestEven_le_of_le {n d a : Nat} (hd : 0 < d) (h : n ≤ a * d) :
    nearestEven n d ≤ a := by
  have := @nearestEven_mono n d (a * d) d hd hd
    (Nat.mul_le_mul_right _ h)
  rwa [nearestEven_mul a d hd] at this

theorem le_nearestEven_of_le {n d a : Nat} (hd : 0 < d) (h : a * d ≤ n) :
    a ≤ nearestEven n d := by
  have := @nearestEven_mono (a * d) d n d hd hd
    (Nat.mul_le_mul_right _ h)
  rwa [nearestEven_mul a d hd] at this


theorem roundNat_def (n d : Nat) :
    roundNat n d = nearestEven n (d * 2 ^ (log2 (n / d) - 23)) * 2 ^ (log2 (n / d) - 23) := rfl

/-- A value with at most 24 significant bits is a multiple of the spacing at its magnitude. -/
theorem spacing_dvd {m j : Nat} (hm : m < 2 ^ 24) :
    2 ^ (log2 (m * 2 ^ j) - 23) ∣ m * 2 ^ j := by
  by_cases h0 : m * 2 ^ j = 0
  · rw [h0]; exact dvd_zero _
  · obtain ⟨h1, _⟩ := log2_spec _ h0
    have h3 : m * 2 ^ j < 2 ^ (24 + j) := by
      rw [pow_add]
      exact Nat.mul_lt_mul_of_lt_of_le hm le_rfl (by positivity)
    have h4 : 2 ^ log2 (m * 2 ^ j) < 2 ^ (24 + j) := lt_of_le_of_lt h1 h3
    have h5 := (Nat.pow_lt_pow_iff_right (by norm_num : 1 < 2)).1 h4
    have h6 : log2 (m * 2 ^ j) - 23 ≤ j := by omega
    exact Dvd.dvd.mul_left (pow_dvd_pow 2 h6) m

theorem roundNat_exact {m j d : Nat} (hm : m < 2 ^ 24) (hd : 0 < d) :
    roundNat (m * 2 ^ j * d) d = m * 2 ^ j := by
  rw [roundNat_def, Nat.mul_div_cancel _ hd]
  obtain ⟨c, hc⟩ := spacing_dvd (j := j) hm
  set q := 2 ^ (log2 (m * 2 ^ j) - 23) with hq
  have hqpos : 0 < q := by positivity
  have : m * 2 ^ j * d = c * (d * q) := by rw [hc]; ring
  rw [this, nearestEven_mul c (d * q) (Nat.mul_pos hd hqpos), hc]
  ring

theorem roundNat_mono {n d n' d' : Nat} (hd : 0 < d) (hd' : 0 < d') (h : n * d' ≤ n' * d) :
    roundNat n d ≤ roundNat n' d' := by
  have hf : n / d ≤ n' / d' := floor_mono hd hd' h
  have he : log2 (n / d) ≤ log2 (n' / d') := log2_mono hf
  rw [roundNat_def, roundNat_def]
  set k := log2 (n / d) - 23 with hk
  set k' := log2 (n' / d') - 23 with hk'
  have hkk : k ≤ k' := by omega
  rcases Nat.eq_or_lt_of_le hkk with heq | hlt
  · rw [← heq]
    apply Nat.mul_le_mul_right
    apply nearestEven_mono (Nat.mul_pos hd (by positivity)) (Nat.mul_pos hd' (by positivity))
    calc n * (d' * 2 ^ k) = n * d' * 2 ^ k := by ring
      _ ≤ n' * d * 2 ^ k := Nat.mul_le_mul_right _ h
      _ = n' * (d * 2 ^ k) := by ring
  · -- different binades: a power of two lies in between
    have hup : nearestEven n (d * 2 ^ k) * 2 ^ k ≤ 2 ^ (k + 24) := by
      have hlt2 : n / d < 2 ^ (k + 24) := by
        by_cases h0 : n / d = 0
        · rw [h0]; positivity
        · obtain ⟨_, h2⟩ := log2_spec _ h0
          have : log2 (n / d) + 1 ≤ k + 24 := by omega
          exact lt_of_lt_of_le h2 (Nat.pow_le_pow_right (by norm_num) this)
      have hn : n < 2 ^ (k + 24) * d := (Nat.div_lt_iff_lt_mul hd).1 hlt2
      have : nearestEven n (d * 2 ^ k) ≤ 2 ^ 24 := by
        apply nearestEven_le_of_le (Nat.mul_pos hd (by positivity))
        have : 2 ^ 24 * (d * 2 ^ k) = 2 ^ (k + 24) * d := by rw [pow_add]; ring
        omega
      calc nearestEven n (d * 2 ^ k) * 2 ^ k ≤ 2 ^ 24 * 2 ^ k := Nat.mul_le_mul_right _ this
        _ = 2 ^ (k + 24) := by rw [pow_add]; ring
    have hlow : 2 ^ (k' + 23) ≤ nearestEven n' (d' * 2 ^ k') * 2 ^ k' := by
      have hk0 : 0 < k' := by omega
      have h0 : n' / d' ≠ 0 := by
        intro h0
        rw [h0, log2_zero] at hk'
        omega
      obtain ⟨h1, _⟩ := log2_spec _ h0
      have : log2 (n' / d') = k' + 23 := by omega
      rw [this] at h1
      have hn : 2 ^ (k' + 23) * d' ≤ n' := (Nat.le_div_iff_mul_le hd').1 h1
      have : 2 ^ 23 ≤ nearestEven n' (d' * 2 ^ k') := by
        apply le_nearestEven_of_le (Nat.mul_pos hd' (by positivity))
        have : 2 ^ 23 * (d' * 2 ^ k') = 2 ^ (k' + 23) * d' := by rw [pow_add]; ring
        omega
      calc 2 ^ (k' + 23) = 2 ^ 23 * 2 ^ k' := by rw [pow_add]; ring
        _ ≤ nearestEven n' (d' * 2 ^ k') * 2 ^ k' := Nat.mul_le_mul_right _ this
    calc nearestEven n (d * 2 ^ k) * 2 ^ k ≤ 2 ^ (k + 24) := hup
      _ ≤ 2 ^ (k' + 23) := Nat.pow_le_pow_right (by norm_num) (by omega)
      _ ≤ _ := hlow

theorem roundNat_isValue (n d : Nat) (hd : 0 < d) :
    ∃ m k : Nat, m < 2 ^ 24 ∧ roundNat n d = m * 2 ^ k := by
  rw [roundNat_def]
  set k := log2 (n / d) - 23 with hk
  have hlt2 : n / d < 2 ^ (k + 24) := by
    by_cases h0 : n / d = 0
    · rw [h0]; positivity
    · obtain ⟨_, h2⟩ := log2_spec _ h0
      have : log2 (n / d) + 1 ≤ k + 24 := by omega
      exact lt_of_lt_of_le h2 (Nat.pow_le_pow_right (by norm_num) this)
  have hn : n < 2 ^ (k + 24) * d := (Nat.div_lt_iff_lt_mul hd).1 hlt2
  have hle : nearestEven n (d * 2 ^ k) ≤ 2 ^ 24 := by
    apply nearestEven_le_of_le (Nat.mul_pos hd (by positivity))
    have : 2 ^ 24 * (d * 2 ^ k) = 2 ^ (k + 24) * d := by rw [pow_add]; ring
    omega
  rcases Nat.eq_or_lt_of_le hle with heq | hlt
  · refine ⟨2 ^ 23, k + 1, by norm_num, ?_⟩
    rw [heq, pow_succ]; ring
  · exact ⟨_, k, hlt, rfl⟩


theorem nearestEven_zero (d : Nat) : nearestEven 0 d = 0 := by
  unfold nearestEven
  simp

theorem roundNat_zero (d : Nat) : roundNat 0 d = 0 := by
  rw [roundNat_def, nearestEven_zero, Nat.zero_mul]

theorem round_zero (d : Nat) : round 0 d = 0 := by
  unfold round
  simp [roundNat_zero]

theorem round_of_nonneg {n : Int} (h : 0 ≤ n) (d : Nat) :
    round n d = ((roundNat n.natAbs d : Nat) : Int) := by
  unfold round
  rw [if_neg (not_lt.mpr h)]

theorem round_natCast (n d : Nat) : round (n : Int) d = ((roundNat n d : Nat) : Int) := by
  rw [round_of_nonneg (Int.natCast_nonneg n), Int.natAbs_ofNat]

theorem round_neg (n : Int) (d : Nat) : round (-n) d = -round n d := by
  rcases lt_trichotomy n 0 with h | h | h
  · unfold round
    rw [if_neg (by omega), if_pos h, Int.natAbs_neg, neg_neg]
  · subst h; simp [round_zero]
  · unfold round
    rw [if_pos (by omega), if_neg (by omega), Int.natAbs_neg]

theorem round_nonneg {n : Int} (h : 0 ≤ n) (d : Nat) : 0 ≤ round n d := by
  rw [round_of_nonneg h]
  exact Int.natCast_nonneg _

theorem round_nonpos {n : Int} (h : n ≤ 0) (d : Nat) : round n d ≤ 0 := by
  have := round_nonneg (n := -n) (by omega) d
  rw [round_neg] at this
  exact Int.neg_nonneg.mp this

theorem round_mono {n n' : Int} {d d' : Nat} (hd : 0 < d) (hd' : 0 < d')
    (h : n * d' ≤ n' * d) : round n d ≤ round n' d' := by
  have hdz : (0 : Int) < d := by exact_mod_cast hd
  have hdz' : (0 : Int) < d' := by exact_mod_cast hd'
  rcases lt_or_le n 0 with hn | hn
  · rcases lt_or_le n' 0 with hn' | hn'
    · -- both negative
      obtain ⟨a, ha⟩ : ∃ a : Nat, n = -(a : Int) := ⟨n.natAbs, by omega⟩
      obtain ⟨b, hb⟩ : ∃ b : Nat, n' = -(b : Int) := ⟨n'.natAbs, by omega⟩
      subst ha; subst hb
      rw [round_neg, round_neg, round_natCast, round_natCast]
      have hba : b * d ≤ a * d' := by
        have : (b : Int) * d ≤ a * d' := by nlinarith
        exact_mod_cast this
      have := roundNat_mono hd' hd hba
      exact Int.neg_le_neg (by exact_mod_cast this)
    · exact le_trans (round_nonpos (le_of_lt hn) d) (round_nonneg hn' d')
  · have hn' : 0 ≤ n' := by
      by_contra hc
      have hc' : n' < 0 := not_le.mp hc
      nlinarith
    obtain ⟨a, ha⟩ : ∃ a : Nat, n = (a : Int) := ⟨n.natAbs, by omega⟩
    obtain ⟨b, hb⟩ : ∃ b : Nat, n' = (b : Int) := ⟨n'.natAbs, by omega⟩
    subst ha; subst hb
    rw [round_natCast, round_natCast]
    have hab : a * d' ≤ b * d := by exact_mod_cast h
    exact_mod_cast roundNat_mono hd hd' hab

theorem round_exact {x : F32} (hx : IsValue x) {d : Nat} (hd : 0 < d) :
    round (x * d) d = x := by
  obtain ⟨m, j, hm, hmj⟩ := hx
  rcases lt_or_le x 0 with h | h
  · have hx' : x = -((m * 2 ^ j : Nat) : Int) := by
      have h1 : (x.natAbs : Int) = -x := Int.ofNat_natAbs_of_nonpos (le_of_lt h)
      rw [hmj] at h1
      linarith
    rw [hx', neg_mul, round_neg]
    have : (((m * 2 ^ j : Nat) : Int) * (d : Int)) = ((m * 2 ^ j * d : Nat) : Int) := by
      push_cast; ring
    rw [this, round_natCast, roundNat_exact hm hd]
  · have hx' : x = ((m * 2 ^ j : Nat) : Int) := by
      have h1 : (x.natAbs : Int) = x := Int.natAbs_of_nonneg h
      rw [hmj] at h1
      exact h1.symm
    rw [hx']
    have : (((m * 2 ^ j : Nat) : Int) * (d : Int)) = ((m * 2 ^ j * d : Nat) : Int) := by
      push_cast; ring
    rw [this, round_natCast, roundNat_exact hm hd]

theorem round_isValue (n : Int) {d : Nat} (hd : 0 < d) : IsValue (round n d) := by
  obtain ⟨m, k, hm, h⟩ := roundNat_isValue n.natAbs d hd
  refine ⟨m, k, hm, ?_⟩
  unfold round
  split_ifs
  · rw [Int.natAbs_neg, Int.natAbs_ofNat, h]
  · rw [Int.natAbs_ofNat, h]

theorem isValue_neg {x : F32} (h : IsValue x) : IsValue (-x) := by
  obtain ⟨m, j, hm, hmj⟩ := h
  exact ⟨m, j, hm, by rw [Int.natAbs_neg, hmj]⟩

theorem one_pos : 0 < one := by unfold one; positivity

theorem ofNat_eq (n : Nat) : ofNat n = ((roundNat (n * one) 1 : Nat) : Int) := by
  unfold ofNat
  rw [round_natCast]

theorem ofNat_exact {m j : Nat} (hm : m < 2 ^ 24) :
    ofNat (m * 2 ^ j) = ((m * 2 ^ j * one : Nat) : Int) := by
  rw [ofNat_eq]
  have : m * 2 ^ j * one = m * 2 ^ (j + 149) * 1 := by unfold one; rw [pow_add]; ring
  rw [this, roundNat_exact hm Nat.one_pos, Nat.mul_one]

theorem ofNat_mono {a b : Nat} (h : a ≤ b) : ofNat a ≤ ofNat b := by
  rw [ofNat_eq, ofNat_eq]
  exact_mod_cast roundNat_mono Nat.one_pos Nat.one_pos
    (by simpa using Nat.mul_le_mul_right one h)

theorem ofNat_nonneg (n : Nat) : 0 ≤ ofNat n := by
  rw [ofNat_eq]; exact Int.natCast_nonneg _

theorem ofNat_one_le {n : Nat} (h : 1 ≤ n) : (one : Int) ≤ ofNat n := by
  have h1 : ofNat 1 = ((one : Nat) : Int) := by
    have := ofNat_exact (m := 1) (j := 0) (by norm_num)
    simpa using this
  rw [← h1]
  exact ofNat_mono h

theorem million_pos : 0 < million := by
  unfold million one
  positivity

theorem million_natAbs : million.natAbs = 1000000 * one := by
  unfold million
  rw [Int.natAbs_ofNat]

theorem div_million (a : F32) : div a million = round (a * one) (1000000 * one) := by
  unfold div
  rw [million_natAbs, Int.sign_eq_one_of_pos million_pos, mul_one]

theorem div_neg_million (a : F32) : div a (-million) = -div a million := by
  rw [div_million]
  unfold div
  rw [Int.natAbs_neg, million_natAbs, Int.sign_neg, Int.sign_eq_one_of_pos million_pos,
    ← round_neg]
  congr 1
  ring

theorem div_million_pos {a : F32} (h : (one : Int) ≤ a) : 0 < div a million := by
  rw [div_million]
  have hd : 0 < 1000000 * one := Nat.mul_pos (by norm_num) one_pos
  have h1 : round ((1 : Int) * ((1000000 * one : Nat) : Int)) (1000000 * one) = 1 :=
    round_exact (x := 1) ⟨1, 0, by norm_num, by simp⟩ hd
  have h2 : round ((1 : Int) * ((1000000 * one : Nat) : Int)) (1000000 * one)
      ≤ round (a * one) (1000000 * one) := by
    apply round_mono hd hd
    have ho : (1000000 : Int) ≤ one := by unfold one; norm_num
    have hpos : (0 : Int) < ((1000000 * one : Nat) : Int) := by exact_mod_cast hd
    have : (1 : Int) * ((1000000 * one : Nat) : Int) ≤ a * one := by
      push_cast
      nlinarith
    exact Int.mul_le_mul_of_nonneg_right this (le_of_lt hpos)
  rw [h1] at h2
  exact lt_of_lt_of_le Int.one_pos h2

theorem div_million_nonneg {a : F32} (h : 0 ≤ a) : 0 ≤ div a million := by
  rw [div_million]
  exact round_nonneg (mul_nonneg h (Int.natCast_nonneg _)) _


theorem nearestEven_near (n d : Nat) (hd : 0 < d) :
    2 * (nearestEven n d * d) ≤ 2 * n + d ∧ 2 * n ≤ 2 * (nearestEven n d * d) + d := by
  have e1 : n / d * d + n % d = n := Nat.div_add_mod' n d
  have hr : n % d < d := Nat.mod_lt n hd
  have e2 : (n / d + 1) * d = n / d * d + d := by ring
  unfold nearestEven
  simp only
  split_ifs with c1 c2
  · omega
  · rw [e2]; omega
  · rcases Nat.mod_two_eq_zero_or_one (n / d) with h | h
    · rw [h, Nat.add_zero]; omega
    · rw [h, e2]; omega

/-- In the normal range the rounding error is at most `2 ^ (-24)` of the rounded number. -/
theorem roundNat_near {n d : Nat} (hd : 0 < d) (hn : 2 ^ 23 * d ≤ n) :
    2 ^ 24 * (roundNat n d * d) ≤ 2 ^ 24 * n + n ∧
      2 ^ 24 * n ≤ 2 ^ 24 * (roundNat n d * d) + n := by
  rw [roundNat_def]
  set k := log2 (n / d) - 23 with hk
  have hq : 0 < 2 ^ k := by positivity
  have hD : 0 < d * 2 ^ k := Nat.mul_pos hd hq
  obtain ⟨h1, h2⟩ := nearestEven_near n (d * 2 ^ k) hD
  have hsp : 2 ^ 23 * (d * 2 ^ k) ≤ n := by
    have h0 : n / d ≠ 0 := by
      have : 2 ^ 23 ≤ n / d := (Nat.le_div_iff_mul_le hd).2 hn
      have : 0 < 2 ^ 23 := by positivity
      omega
    obtain ⟨h3, _⟩ := log2_spec _ h0
    have h4 : 2 ^ (k + 23) ≤ n / d := by
      rcases Nat.eq_zero_or_pos k with hk0 | hk0
      · rw [hk0]; exact (Nat.le_div_iff_mul_le hd).2 hn
      · have : log2 (n / d) = k + 23 := by omega
        rw [← this]; exact h3
    have h5 := (Nat.le_div_iff_mul_le hd).1 h4
    calc 2 ^ 23 * (d * 2 ^ k) = 2 ^ (k + 23) * d := by rw [pow_add]; ring
      _ ≤ n := h5
  have e : nearestEven n (d * 2 ^ k) * 2 ^ k * d = nearestEven n (d * 2 ^ k) * (d * 2 ^ k) := by
    ring
  rw [e]
  constructor <;> nlinarith

end F32

theorem getMilliseconds_pos_branch {s e : Nat} (h : e > s) :
    getMilliseconds s e = F32.div (F32.ofNat (e - s)) F32.million := by
  unfold getMilliseconds
  rw [if_pos h]

theorem getMilliseconds_neg_branch {s e : Nat} (h : e ≤ s) :
    getMilliseconds s e = -F32.div (F32.ofNat (s - e)) F32.million := by
  unfold getMilliseconds
  rw [if_neg (by omega)]
  exact F32.div_neg_million _

/-- Accuracy of the quotient: within `2 ^ (-22)` of the exact quotient, relatively. -/
theorem div_ofNat_million_near (n : Nat) :
    |F32.toRat (F32.div (F32.ofNat n) F32.million) - (n : ℚ) / 10 ^ 6|
      ≤ (n : ℚ) / 10 ^ 6 / 2 ^ 22 := by
  rcases Nat.eq_zero_or_pos n with h0 | hpos
  · subst h0
    have : F32.div (F32.ofNat 0) F32.million = 0 := by
      rw [F32.div_million, F32.ofNat_eq, Nat.zero_mul, F32.roundNat_zero]
      simp [F32.round_zero]
    rw [this]
    simp [F32.toRat]
  · have hone : (F32.one : Int) ≤ F32.ofNat n := F32.ofNat_one_le hpos
    rw [F32.div_million, F32.ofNat_eq] at *
    set F := F32.roundNat (n * F32.one) 1 with hF
    have hFone : F32.one ≤ F := by exact_mod_cast hone
    have e1 : ((F : Nat) : Int) * ((F32.one : Nat) : Int) = ((F * F32.one : Nat) : Int) := by
      push_cast; ring
    rw [e1, F32.round_natCast]
    set R := F32.roundNat (F * F32.one) (1000000 * F32.one) with hR
    have hopos : 0 < F32.one := F32.one_pos
    have hbig : 2 ^ 23 * 1 ≤ n * F32.one := by
      have : 2 ^ 23 ≤ F32.one := by unfold F32.one; norm_num
      nlinarith
    obtain ⟨a1, a2⟩ := F32.roundNat_near Nat.one_pos hbig
    have hbig2 : 2 ^ 23 * (1000000 * F32.one) ≤ F * F32.one := by
      have : 2 ^ 23 * 1000000 ≤ F32.one := by unfold F32.one; norm_num
      nlinarith
    obtain ⟨b1, b2⟩ := F32.roundNat_near (Nat.mul_pos (by norm_num) hopos) hbig2
    rw [← hF] at a1 a2
    rw [← hR] at b1 b2
    -- cancel the factor `one`
    have b1' : 2 ^ 24 * (R * 1000000) ≤ 2 ^ 24 * F + F := by
      have : (2 ^ 24 * (R * 1000000)) * F32.one ≤ (2 ^ 24 * F + F) * F32.one := by nlinarith
      exact Nat.le_of_mul_le_mul_right this hopos
    have b2' : 2 ^ 24 * F ≤ 2 ^ 24 * (R * 1000000) + F := by
      have : (2 ^ 24 * F) * F32.one ≤ (2 ^ 24 * (R * 1000000) + F) * F32.one := by nlinarith
      exact Nat.le_of_mul_le_mul_right this hopos
    have a1q : (2 : ℚ) ^ 24 * F ≤ 2 ^ 24 * (n * 2 ^ 149) + n * 2 ^ 149 := by
      have := a1
      unfold F32.one at this
      have h' : (2 ^ 24 * (F * 1) : ℕ) ≤ 2 ^ 24 * (n * 2 ^ 149) + n * 2 ^ 149 := this
      exact_mod_cast (by simpa using h')
    have a2q : (2 : ℚ) ^ 24 * (n * 2 ^ 149) ≤ 2 ^ 24 * F + n * 2 ^ 149 := by
      have := a2
      unfold F32.one at this
      have h' : (2 ^ 24 * (n * 2 ^ 149) : ℕ) ≤ 2 ^ 24 * (F * 1) + n * 2 ^ 149 := this
      exact_mod_cast (by simpa using h')
    have b1q : (2 : ℚ) ^ 24 * (R * 1000000) ≤ 2 ^ 24 * F + F := by exact_mod_cast b1'
    have b2q : (2 : ℚ) ^ 24 * F ≤ 2 ^ 24 * (R * 1000000) + F := by exact_mod_cast b2'
    have hnq : (0 : ℚ) ≤ n := Nat.cast_nonneg n
    unfold F32.toRat
    rw [abs_le]
    have key : ((R : ℕ) : ℚ) / 2 ^ 149 - (n : ℚ) / 10 ^ 6
        = ((R : ℚ) * 1000000 - n * 2 ^ 149) / (2 ^ 149 * 10 ^ 6) := by
      field_simp
      ring
    have hden : (0 : ℚ) < 2 ^ 149 * 10 ^ 6 := by positivity
    have key2 : (n : ℚ) / 10 ^ 6 / 2 ^ 22
        = ((n : ℚ) * 2 ^ 149 / 2 ^ 22) / (2 ^ 149 * 10 ^ 6) := by
      field_simp
      ring
    push_cast
    rw [key, key2, ← neg_div, div_le_div_iff_of_pos_right hden,
      div_le_div_iff_of_pos_right hden]
    constructor
    · rw [neg_le, le_div_iff₀ (by positivity)]; linarith
    · rw [le_div_iff₀ (by positivity)]; linarith

theorem sort_sorted (v : List F32) : (sort v).Sorted (fun a b => a ≤ b) :=
  List.sorted_insertionSort _ v

theorem sort_perm (v : List F32) : (sort v).Perm v :=
  List.perm_insertionSort _ v

theorem sort_length (v : List F32) : (sort v).length = v.length :=
  (sort_perm v).length_eq

theorem sort_ne_nil {v : List F32} (h : v ≠ []) : sort v ≠ [] := by
  intro hs
  have := sort_length v
  rw [hs] at this
  exact h (List.length_eq_zero.mp this.symm)

/-- The ascending arrangement is unique: whatever algorithm `std::sort` runs, it returns
`sort v`. -/
theorem sort_unique {v t : List F32} (hs : t.Sorted (fun a b => a ≤ b)) (hp : t.Perm v) :
    t = sort v :=
  List.eq_of_perm_of_sorted (hp.trans (sort_perm v).symm) hs (sort_sorted v)

theorem sort_eq_of_perm {v w : List F32} (hp : v.Perm w) : sort v = sort w :=
  sort_unique (sort_sorted v) ((sort_perm v).trans hp)

theorem sorted_getElem_le {t : List F32} (hs : t.Sorted (fun a b => a ≤ b)) {i j : Nat}
    (hi : i < t.length) (hj : j < t.length) (hij : i ≤ j) : t[i] ≤ t[j] := by
  rcases Nat.eq_or_lt_of_le hij with h | h
  · subst h; exact le_rfl
  · exact (List.pairwise_iff_getElem.mp hs) i j hi hj h

/-- On a non-empty series all three element accesses of `calculateStatistics` are in bounds. -/
theorem calculateStatistics_ok {v : List F32} (h : v ≠ []) :
    ∃ (h0 : 0 < (sort v).length) (h1 : (sort v).length - 1 < (sort v).length)
      (h2 : (sort v).length / 2 < (sort v).length),
      calculateStatistics v = Except.ok (sort v,
        TimeAnalysis.mk (F32.div ((sort v).foldl F32.add 0) (F32.ofNat (sort v).length))
          ((sort v)[0]) ((sort v)[(sort v).length - 1]) ((sort v)[(sort v).length / 2])) := by
  have hne := sort_ne_nil h
  have h0 : 0 < (sort v).length := List.length_pos.mpr hne
  have h1 : (sort v).length - 1 < (sort v).length := by omega
  have h2 : (sort v).length / 2 < (sort v).length := Nat.div_lt_self h0 (by norm_num)
  refine ⟨h0, h1, h2, ?_⟩
  have e0 : (sort v).head? = some ((sort v)[0]) := by
    rw [List.head?_eq_getElem?, List.getElem?_eq_getElem h0]
  have e1 : (sort v).getLast? = some ((sort v)[(sort v).length - 1]) := by
    rw [List.getLast?_eq_getElem?, List.getElem?_eq_getElem h1]
  have e2 : (sort v)[(sort v).length / 2]? = some ((sort v)[(sort v).length / 2]) :=
    List.getElem?_eq_getElem h2
  unfold calculateStatistics front back subscript
  simp only [e0, e1, e2]
  rfl

theorem calculateStatistics_nil : calculateStatistics [] = Except.error OutOfBounds.front := rfl


theorem F32.ofNat_isValue (n : Nat) : F32.IsValue (F32.ofNat n) :=
  F32.round_isValue _ Nat.one_pos

theorem F32.ofNat_small {n : Nat} (h : n ≤ 2 ^ 24) :
    F32.ofNat n = ((n * F32.one : Nat) : Int) := by
  rcases Nat.eq_or_lt_of_le h with h | h
  · have := F32.ofNat_exact (m := 1) (j := 24) (by norm_num)
    rw [Nat.one_mul] at this
    rw [h, this]
  · have := F32.ofNat_exact (m := n) (j := 0) h
    simpa using this


/-! ## C1: latency computation -/

theorem toUInt64_lt (x : Int) : toUInt64 x < 2 ^ 64 := by
  unfold toUInt64
  have h1 : 0 ≤ x % 2 ^ 64 := Int.emod_nonneg x (by norm_num)
  have h2 : x % 2 ^ 64 < 2 ^ 64 := Int.emod_lt_of_pos x (by norm_num)
  omega

theorem toUInt64_of_nonneg {x : Int} (h0 : 0 ≤ x) (h1 : x < 2 ^ 64) : (toUInt64 x : Int) = x := by
  unfold toUInt64
  rw [Int.emod_eq_of_lt h0 h1]
  exact Int.toNat_of_nonneg h0

theorem GET_NANOSECONDS_lt (ts : timespec) : GET_NANOSECONDS ts < 2 ^ 64 :=
  Nat.mod_lt _ (by norm_num)

theorem GET_NANOSECONDS_eq {ts : timespec} (h0 : 0 ≤ ts.tv_sec) (h1 : 0 ≤ ts.tv_nsec)
    (h2 : ts.tv_sec * 1000000000 + ts.tv_nsec < 2 ^ 64) :
    (GET_NANOSECONDS ts : Int) = ts.tv_sec * 1000000000 + ts.tv_nsec := by
  unfold GET_NANOSECONDS
  have e1 := toUInt64_of_nonneg h1 (by omega)
  have e2 := toUInt64_of_nonneg h0 (by omega)
  have h3 : toUInt64 ts.tv_nsec + toUInt64 ts.tv_sec * 1000000000 < 2 ^ 64 := by
    have : ((toUInt64 ts.tv_nsec + toUInt64 ts.tv_sec * 1000000000 : Nat) : Int) < 2 ^ 64 := by
      push_cast
      rw [e1, e2]
      omega
    exact_mod_cast this
  rw [Nat.mod_eq_of_lt h3]
  push_cast
  rw [e1, e2]
  ring

/-- Results of `getMilliseconds` on 64-bit time stamps are binary32 values far below the
overflow threshold `2 ^ 128`: at most `2 ^ 45` (milliseconds). -/
theorem getMilliseconds_finite {s e : Nat} (hs : s < 2 ^ 64) (he : e < 2 ^ 64) :
    F32.IsValue (getMilliseconds s e) ∧ (getMilliseconds s e).natAbs ≤ 2 ^ 45 * F32.one := by
  have hd : 0 < 1000000 * F32.one := Nat.mul_pos (by norm_num) F32.one_pos
  have key : ∀ n : Nat, n < 2 ^ 64 →
      F32.IsValue (F32.div (F32.ofNat n) F32.million) ∧
      0 ≤ F32.div (F32.ofNat n) F32.million ∧
      F32.div (F32.ofNat n) F32.million ≤ ((2 ^ 45 * F32.one : Nat) : Int) := by
    intro n hn
    refine ⟨?_, F32.div_million_nonneg (F32.ofNat_nonneg _), ?_⟩
    · rw [F32.div_million]; exact F32.round_isValue _ hd
    · have h1 : F32.ofNat n ≤ F32.ofNat (2 ^ 64) := F32.ofNat_mono (le_of_lt hn)
      have h2 : F32.ofNat (2 ^ 64) = ((2 ^ 64 * F32.one : Nat) : Int) := by
        have := F32.ofNat_exact (m := 1) (j := 64) (by norm_num)
        rwa [Nat.one_mul] at this
      rw [h2] at h1
      have hv : F32.IsValue (((2 ^ 45 * F32.one : Nat) : Int)) := by
        refine ⟨1, 45 + 149, by norm_num, ?_⟩
        rw [Int.natAbs_ofNat, pow_add]
        unfold F32.one
        ring
      rw [F32.div_million, ← F32.round_exact hv hd]
      apply F32.round_mono hd hd
      apply Int.mul_le_mul_of_nonneg_right _ (Int.natCast_nonneg _)
      have hone : (0 : Int) ≤ ((F32.one : Nat) : Int) := Int.natCast_nonneg _
      have h3 : F32.ofNat n * (F32.one : Int) ≤ ((2 ^ 64 * F32.one : Nat) : Int) * F32.one :=
        Int.mul_le_mul_of_nonneg_right h1 hone
      refine le_trans h3 ?_
      push_cast
      have : (0 : Int) ≤ (F32.one : Int) * F32.one := mul_nonneg hone hone
      nlinarith
  rcases Nat.lt_or_ge s e with h | h
  · rw [getMilliseconds_pos_branch h]
    obtain ⟨k1, k2, k3⟩ := key (e - s) (by omega)
    refine ⟨k1, ?_⟩
    have h4 := Int.natAbs_of_nonneg k2
    rw [← h4] at k3
    exact_mod_cast k3
  · rw [getMilliseconds_neg_branch h]
    obtain ⟨k1, k2, k3⟩ := key (s - e) (by omega)
    refine ⟨F32.isValue_neg k1, ?_⟩
    rw [Int.natAbs_neg]
    have h4 := Int.natAbs_of_nonneg k2
    rw [← h4] at k3
    exact_mod_cast k3

theorem F32.toRat_neg (x : F32) : F32.toRat (-x) = -F32.toRat x := by
  unfold F32.toRat
  push_cast
  ring

/-- Accuracy of `getMilliseconds`: the signed difference over `10 ^ 6`, up to the relative error
`2 ^ (-22)` of two roundings to binary32. -/
theorem getMilliseconds_near (s e : Nat) :
    |F32.toRat (getMilliseconds s e) - ((e : ℚ) - s) / 10 ^ 6|
      ≤ |(e : ℚ) - s| / 10 ^ 6 / 2 ^ 22 := by
  rcases Nat.lt_or_ge s e with h | h
  · rw [getMilliseconds_pos_branch h]
    have hc : ((e - s : Nat) : ℚ) = (e : ℚ) - s := Nat.cast_sub (le_of_lt h)
    have := div_ofNat_million_near (e - s)
    rw [hc] at this
    have hpos : (0 : ℚ) ≤ (e : ℚ) - s := by rw [← hc]; exact Nat.cast_nonneg _
    rwa [abs_of_nonneg hpos]
  · rw [getMilliseconds_neg_branch h, F32.toRat_neg]
    have hc : ((s - e : Nat) : ℚ) = (s : ℚ) - e := Nat.cast_sub h
    have := div_ofNat_million_near (s - e)
    rw [hc] at this
    have hneg : (e : ℚ) - s ≤ 0 := by
      have : (0 : ℚ) ≤ (s : ℚ) - e := by rw [← hc]; exact Nat.cast_nonneg _
      linarith
    rw [abs_of_nonpos hneg]
    have e1 : -F32.toRat (F32.div (F32.ofNat (s - e)) F32.million) - ((e : ℚ) - s) / 10 ^ 6
        = -(F32.toRat (F32.div (F32.ofNat (s - e)) F32.million) - ((s : ℚ) - e) / 10 ^ 6) := by
      ring
    rw [e1, abs_neg]
    have e2 : -((e : ℚ) - s) = (s : ℚ) - e := by ring
    rwa [e2]

/-- C1: for all unsigned 64-bit time stamps `start` and `end`, `getMilliseconds` returns the
binary32 quotient `float(end - start) / 1000000.0f`, a positive value, when `end > start`, and the
negation of `float(start - end) / 1000000.0f`, a non-positive value, when `end <= start`. In both
cases the result is the signed difference `(end - start) / 10 ^ 6` up to the relative rounding
error `2 ^ (-22)`, and it is a finite binary32 value (magnitude at most `2 ^ 45`). The two
overloads taking a `timespec` convert it by `GET_NANOSECONDS` (which is
`tv_sec * 1000000000 + tv_nsec` whenever that is a 64-bit value) and then compute the same. -/
theorem getMilliseconds_sign_policy (f_startNs_ui f_endNs_ui : Nat)
    (fr_startNs_ui fr_endNs_ui : timespec)
    (hs : f_startNs_ui < 2 ^ 64) (he : f_endNs_ui < 2 ^ 64) :
    (f_endNs_ui > f_startNs_ui →
      getMilliseconds f_startNs_ui f_endNs_ui
        = F32.div (F32.ofNat (f_endNs_ui - f_startNs_ui)) F32.million ∧
      0 < getMilliseconds f_startNs_ui f_endNs_ui) ∧
    (f_endNs_ui ≤ f_startNs_ui →
      getMilliseconds f_startNs_ui f_endNs_ui
        = -F32.div (F32.ofNat (f_startNs_ui - f_endNs_ui)) F32.million ∧
      getMilliseconds f_startNs_ui f_endNs_ui ≤ 0) ∧
    |F32.toRat (getMilliseconds f_startNs_ui f_endNs_ui)
        - ((f_endNs_ui : ℚ) - f_startNs_ui) / 10 ^ 6|
      ≤ |(f_endNs_ui : ℚ) - f_startNs_ui| / 10 ^ 6 / 2 ^ 22 ∧
    (F32.IsValue (getMilliseconds f_startNs_ui f_endNs_ui) ∧
      (getMilliseconds f_startNs_ui f_endNs_ui).natAbs ≤ 2 ^ 45 * F32.one) ∧
    getMilliseconds_ts_ts fr_startNs_ui fr_endNs_ui
      = getMilliseconds (GET_NANOSECONDS fr_startNs_ui) (GET_NANOSECONDS fr_endNs_ui) ∧
    getMilliseconds_ts_u64 fr_startNs_ui f_endNs_ui
      = getMilliseconds (GET_NANOSECONDS fr_startNs_ui) f_endNs_ui ∧
    GET_NANOSECONDS fr_startNs_ui < 2 ^ 64 ∧
    (0 ≤ fr_startNs_ui.tv_sec → 0 ≤ fr_startNs_ui.tv_nsec →
      fr_startNs_ui.tv_sec * 1000000000 + fr_startNs_ui.tv_nsec < 2 ^ 64 →
      (GET_NANOSECONDS fr_startNs_ui : Int)
        = fr_startNs_ui.tv_sec * 1000000000 + fr_startNs_ui.tv_nsec) := by
  refine ⟨?_, ?_, getMilliseconds_near _ _, getMilliseconds_finite hs he, rfl, rfl,
    GET_NANOSECONDS_lt _, GET_NANOSECONDS_eq⟩
  · intro h
    refine ⟨getMilliseconds_pos_branch h, ?_⟩
    rw [getMilliseconds_pos_branch h]
    exact F32.div_million_pos (F32.ofNat_one_le (by omega))
  · intro h
    refine ⟨getMilliseconds_neg_branch h, ?_⟩
    rw [getMilliseconds_neg_branch h]
    have := F32.div_million_nonneg (F32.ofNat_nonneg (f_startNs_ui - f_endNs_ui))
    exact Int.neg_nonpos_of_nonneg this

set_option maxRecDepth 100000 in
/-- C1, witness: the time stamps `1000000` and `3500000`, in both orders. -/
theorem getMilliseconds_sign_policy_witness :
    (1000000 < 2 ^ 64 ∧ 3500000 < 2 ^ 64) ∧
    0 < getMilliseconds 1000000 3500000 ∧ getMilliseconds 3500000 1000000 ≤ 0 :=
  ⟨⟨by norm_num, by norm_num⟩,
    ((getMilliseconds_sign_policy 1000000 3500000 ⟨0, 0⟩ ⟨0, 0⟩
      (by norm_num) (by norm_num)).1 (by norm_num)).2,
    ((getMilliseconds_sign_policy 3500000 1000000 ⟨0, 0⟩ ⟨0, 0⟩
      (by norm_num) (by norm_num)).2.1 (by norm_num)).2⟩

/-! ## C2-C7: statistics reducer -/

/-- C2: for every non-empty series `S`, `calculateStatistics` returns an analysis with
`min <= median <= max`. -/
theorem calculateStatistics_min_le_median_le_max (S : List F32) (hne : S ≠ []) :
    ∃ T r, calculateStatistics S = Except.ok (T, r) ∧
      r.min_f ≤ r.median_f ∧ r.median_f ≤ r.max_f := by
  obtain ⟨h0, h1, h2, h⟩ := calculateStatistics_ok hne
  refine ⟨_, _, h, ?_, ?_⟩
  · exact sorted_getElem_le (sort_sorted S) h0 h2 (Nat.zero_le _)
  · exact sorted_getElem_le (sort_sorted S) h2 h1 (by omega)

/-- C2, witness: the series `[2.0, 1.0]`. -/
theorem calculateStatistics_min_le_median_le_max_witness :
    [F32.ofNat 2, F32.ofNat 1] ≠ [] ∧
    ∃ T r, calculateStatistics [F32.ofNat 2, F32.ofNat 1] = Except.ok (T, r) ∧
      r.min_f ≤ r.median_f ∧ r.median_f ≤ r.max_f :=
  ⟨List.cons_ne_nil _ _, calculateStatistics_min_le_median_le_max _ (List.cons_ne_nil _ _)⟩

set_option maxRecDepth 100000 in
/-- C3, counterexample: three samples of 3000 ns each, `0.003f` milliseconds. The running sum
`0.003f + 0.003f + 0.003f` is rounded, and the mean comes out below the minimum, `0.003f`. -/
theorem calculateStatistics_mean_below_min :
    ∃ r, calculateStatistics (List.replicate 3 (getMilliseconds 0 3000)) = Except.ok r ∧
      r.2.mean_f < r.2.min_f := by
  refine ⟨_, rfl, ?_⟩
  decide

theorem sum_bounds (t : List F32) (lo hi : F32) (h : ∀ x ∈ t, lo ≤ x ∧ x ≤ hi) :
    (t.length : Int) * lo ≤ t.sum ∧ t.sum ≤ (t.length : Int) * hi := by
  induction t with
  | nil => simp
  | cons a t ih =>
    have ha := h a (List.mem_cons_self a t)
    have := ih (fun x hx => h x (List.mem_cons_of_mem a hx))
    simp only [List.length_cons, List.sum_cons, Nat.cast_add, Nat.cast_one]
    constructor <;> nlinarith [ha.1, ha.2, this.1, this.2]

/-- C3, amended: for every non-empty series of at most `2 ^ 24` binary32 values whose running
binary32 sum is exact (equal to the sum of the elements), the mean computed by
`calculateStatistics` satisfies `min <= mean <= max`. -/
theorem calculateStatistics_mean_between (S : List F32) (hne : S ≠ [])
    (hv : ∀ x ∈ S, F32.IsValue x) (hn : S.length ≤ 2 ^ 24)
    (hsum : (sort S).foldl F32.add 0 = S.sum) :
    ∃ T r, calculateStatistics S = Except.ok (T, r) ∧
      r.min_f ≤ r.mean_f ∧ r.mean_f ≤ r.max_f := by
  obtain ⟨h0, h1, h2, h⟩ := calculateStatistics_ok hne
  have hlen : 0 < S.length := List.length_pos.mpr hne
  have hd : 0 < S.length * F32.one := Nat.mul_pos hlen F32.one_pos
  have hdz : (0 : Int) < ((S.length * F32.one : Nat) : Int) := by exact_mod_cast hd
  have hmean : F32.div ((sort S).foldl F32.add 0) (F32.ofNat (sort S).length)
      = F32.round (S.sum * F32.one) (S.length * F32.one) := by
    have e : F32.ofNat (sort S).length = ((S.length * F32.one : Nat) : Int) := by
      rw [sort_length]; exact F32.ofNat_small hn
    rw [hsum, e]
    unfold F32.div
    rw [Int.sign_eq_one_of_pos hdz, mul_one, Int.natAbs_ofNat]
  have hb := sum_bounds (sort S) ((sort S)[0]) ((sort S)[(sort S).length - 1])
    (fun x hx => by
      obtain ⟨i, hi, rfl⟩ := List.getElem_of_mem hx
      exact ⟨sorted_getElem_le (sort_sorted S) h0 hi (Nat.zero_le _),
        sorted_getElem_le (sort_sorted S) hi h1 (by omega)⟩)
  have hc : (((sort S).length : Nat) : Int) = S.length := by rw [sort_length]
  rw [(sort_perm S).sum_eq, hc] at hb
  have hmin : F32.IsValue ((sort S)[0]) :=
    hv _ ((sort_perm S).mem_iff.mp (List.getElem_mem h0))
  have hmax : F32.IsValue ((sort S)[(sort S).length - 1]) :=
    hv _ ((sort_perm S).mem_iff.mp (List.getElem_mem h1))
  refine ⟨_, _, h, ?_, ?_⟩ <;> simp only <;> rw [hmean]
  · calc (sort S)[0] = F32.round ((sort S)[0] * ((S.length * F32.one : Nat) : Int))
          (S.length * F32.one) := (F32.round_exact hmin hd).symm
      _ ≤ F32.round (S.sum * F32.one) (S.length * F32.one) := by
        apply F32.round_mono hd hd
        apply Int.mul_le_mul_of_nonneg_right _ (le_of_lt hdz)
        have hone : (0 : Int) < ((F32.one : Nat) : Int) := by exact_mod_cast F32.one_pos
        push_cast
        nlinarith [hb.1]
  · calc F32.round (S.sum * F32.one) (S.length * F32.one)
        ≤ F32.round ((sort S)[(sort S).length - 1] * ((S.length * F32.one : Nat) : Int))
          (S.length * F32.one) := by
          apply F32.round_mono hd hd
          apply Int.mul_le_mul_of_nonneg_right _ (le_of_lt hdz)
          have hone : (0 : Int) < ((F32.one : Nat) : Int) := by exact_mod_cast F32.one_pos
          push_cast
          nlinarith [hb.2]
      _ = (sort S)[(sort S).length - 1] := F32.round_exact hmax hd

set_option maxRecDepth 100000 in
/-- C3, witness: the series `[4.0, 1.0, 3.0, 2.0]`, whose running sum `1 + 2 + 3 + 4` is
exact. -/
theorem calculateStatistics_mean_between_witness :
    ∃ T r, calculateStatistics [F32.ofNat 4, F32.ofNat 1, F32.ofNat 3, F32.ofNat 2]
        = Except.ok (T, r) ∧ r.min_f ≤ r.mean_f ∧ r.mean_f ≤ r.max_f :=
  calculateStatistics_mean_between [F32.ofNat 4, F32.ofNat 1, F32.ofNat 3, F32.ofNat 2]
    (List.cons_ne_nil _ _)
    (by
      intro x hx
      simp only [List.mem_cons, List.mem_singleton, List.not_mem_nil, or_false] at hx
      rcases hx with h | h | h | h <;> rw [h] <;> exact F32.ofNat_isValue _)
    (by norm_num) (by decide)

/-- C4: for every non-empty series `S` and every permutation `S'` of `S`,
`calculateStatistics S'` returns the same analysis (mean, min, max and median) as
`calculateStatistics S`, and leaves the same series behind. -/
theorem calculateStatistics_perm (S S' : List F32) (hne : S ≠ []) (hp : S'.Perm S) :
    ∃ T r, calculateStatistics S = Except.ok (T, r) ∧
      calculateStatistics S' = Except.ok (T, r) := by
  obtain ⟨_, _, _, h⟩ := calculateStatistics_ok hne
  refine ⟨_, _, h, ?_⟩
  have e : sort S' = sort S := sort_eq_of_perm hp
  unfold calculateStatistics at h ⊢
  rw [e]
  exact h

/-- C4, witness: `[1.0, 2.0, 3.0]` and its permutation `[3.0, 1.0, 2.0]`. -/
theorem calculateStatistics_perm_witness :
    ∃ T r, calculateStatistics [F32.ofNat 1, F32.ofNat 2, F32.ofNat 3] = Except.ok (T, r) ∧
      calculateStatistics [F32.ofNat 3, F32.ofNat 1, F32.ofNat 2] = Except.ok (T, r) :=
  calculateStatistics_perm [F32.ofNat 1, F32.ofNat 2, F32.ofNat 3]
    [F32.ofNat 3, F32.ofNat 1, F32.ofNat 2] (List.cons_ne_nil _ _)
    ((List.Perm.swap (F32.ofNat 1) (F32.ofNat 3) [F32.ofNat 2]).trans
      (List.Perm.cons (F32.ofNat 1) (List.Perm.swap (F32.ofNat 2) (F32.ofNat 3) [])))

set_option maxRecDepth 100000 in
/-- C5: for every non-empty series `S` with ascending sort `T` (`T` ascending and a permutation
of `S`), `calculateStatistics` returns `min = T[0]`, `max = T[len - 1]` and
`median = T[len / 2]` with integer division; for `[1.0, 2.0, 3.0, 4.0]` the median is `3.0`. -/
theorem calculateStatistics_sorted_positions (S T : List F32) (hne : S ≠ [])
    (hs : T.Sorted (fun a b => a ≤ b)) (hp : T.Perm S) :
    (∃ U r, calculateStatistics S = Except.ok (U, r) ∧
      T[0]? = some r.min_f ∧ T[T.length - 1]? = some r.max_f ∧
      T[T.length / 2]? = some r.median_f) ∧
    (∃ U r, calculateStatistics [F32.ofNat 1, F32.ofNat 2, F32.ofNat 3, F32.ofNat 4]
        = Except.ok (U, r) ∧ r.median_f = F32.ofNat 3) := by
  constructor
  · obtain ⟨h0, h1, h2, h⟩ := calculateStatistics_ok hne
    refine ⟨_, _, h, ?_⟩
    rw [sort_unique hs hp]
    exact ⟨List.getElem?_eq_getElem h0, List.getElem?_eq_getElem h1,
      List.getElem?_eq_getElem h2⟩
  · exact ⟨_, _, rfl, rfl⟩

set_option maxRecDepth 100000 in
/-- C5, witness: `S = [4.0, 1.0, 3.0, 2.0]` with ascending sort `T = [1.0, 2.0, 3.0, 4.0]`. -/
theorem calculateStatistics_sorted_positions_witness :
    ∃ U r, calculateStatistics [F32.ofNat 4, F32.ofNat 1, F32.ofNat 3, F32.ofNat 2]
        = Except.ok (U, r) ∧
      [F32.ofNat 1, F32.ofNat 2, F32.ofNat 3, F32.ofNat 4][0]? = some r.min_f ∧
      [F32.ofNat 1, F32.ofNat 2, F32.ofNat 3, F32.ofNat 4][4 - 1]? = some r.max_f ∧
      [F32.ofNat 1, F32.ofNat 2, F32.ofNat 3, F32.ofNat 4][4 / 2]? = some r.median_f :=
  (calculateStatistics_sorted_positions [F32.ofNat 4, F32.ofNat 1, F32.ofNat 3, F32.ofNat 2]
    [F32.ofNat 1, F32.ofNat 2, F32.ofNat 3, F32.ofNat 4] (List.cons_ne_nil _ _) (by decide)
    (by decide)).1

/-- C6, amended: `calculateStatistics` sorts the series of the caller in place: for every
non-empty series `S`, the series of the caller after the call is the ascending sort of `S`, a
permutation of `S`, and it is identical to `S` exactly when `S` was ascending already. -/
theorem calculateStatistics_sorts_in_place (S : List F32) (hne : S ≠ []) :
    ∃ T r, calculateStatistics S = Except.ok (T, r) ∧
      T.Sorted (fun a b => a ≤ b) ∧ T.Perm S ∧ (T = S ↔ S.Sorted (fun a b => a ≤ b)) := by
  obtain ⟨_, _, _, h⟩ := calculateStatistics_ok hne
  refine ⟨_, _, h, sort_sorted S, sort_perm S, ?_⟩
  constructor
  · intro e
    have := sort_sorted S
    rwa [e] at this
  · intro hs
    exact (sort_unique hs (List.Perm.refl S)).symm

set_option maxRecDepth 100000 in
/-- C6, witness: the series `[2.0, 1.0]`. -/
theorem calculateStatistics_sorts_in_place_witness :
    ∃ T r, calculateStatistics [F32.ofNat 2, F32.ofNat 1] = Except.ok (T, r) ∧
      T.Sorted (fun a b => a ≤ b) ∧ T.Perm [F32.ofNat 2, F32.ofNat 1] ∧
      (T = [F32.ofNat 2, F32.ofNat 1] ↔
        [F32.ofNat 2, F32.ofNat 1].Sorted (fun a b => a ≤ b)) :=
  calculateStatistics_sorts_in_place [F32.ofNat 2, F32.ofNat 1] (List.cons_ne_nil _ _)

set_option maxRecDepth 100000 in
/-- C6, counterexample: after `calculateStatistics` on `[2.0, 1.0]` the series of the caller is
`[1.0, 2.0]`, not `[2.0, 1.0]`. -/
theorem calculateStatistics_reorders_series :
    ∃ T r, calculateStatistics [F32.ofNat 2, F32.ofNat 1] = Except.ok (T, r) ∧
      T = [F32.ofNat 1, F32.ofNat 2] ∧ T ≠ [F32.ofNat 2, F32.ofNat 1] :=
  ⟨_, _, rfl, rfl, by decide⟩

/-- C7, amended: `calculateStatistics` has no guard against an empty series and no `EmptySeries`
condition: it returns an analysis exactly when the series is non-empty; then `front()`, `back()`
and the index `len / 2` are in bounds and the divisor `float(len)` is positive. -/
theorem calculateStatistics_ok_iff (S : List F32) :
    ((∃ r, calculateStatistics S = Except.ok r) ↔ S ≠ []) ∧
    (S ≠ [] → 0 < F32.ofNat (sort S).length) := by
  refine ⟨⟨?_, ?_⟩, ?_⟩
  · rintro ⟨r, hr⟩ hnil
    subst hnil
    rw [calculateStatistics_nil] at hr
    cases hr
  · intro hne
    obtain ⟨_, _, _, h⟩ := calculateStatistics_ok hne
    exact ⟨_, h⟩
  · intro hne
    have h0 : 0 < (sort S).length := List.length_pos.mpr (sort_ne_nil hne)
    exact lt_of_lt_of_le (by exact_mod_cast F32.one_pos) (F32.ofNat_one_le h0)

/-- C7, counterexample: on the empty series the first element access, `front()`, is out of
bounds; no `EmptySeries` condition is raised before it. -/
theorem calculateStatistics_empty_front :
    calculateStatistics [] = Except.error OutOfBounds.front := rfl

/-! ## C8, C9: series files -/

theorem digitChar_isDigit (n : Nat) : (digitChar n).isDigit = true := by
  unfold digitChar
  split <;> decide

theorem sixDigits_spec (n : Nat) :
    (sixDigits n).length = 6 ∧ (sixDigits n).all Char.isDigit = true := by
  simp [sixDigits, digitChar_isDigit]

set_option maxRecDepth 100000 in
/-- C8, the code at the failing input. Interrupt campaign, two loops, samples `2.0` ms then
`1.0` ms in collection order: the file `digitalWriteStart_to_interrupt.gpd` lists `1.000000`
before `2.000000`. Timed campaign (build without event source), two loops, totals `3.0` ms then
`1.0` ms in collection order: the file `startWrite_to_endRead.gpd` lists `1.000000` before
`3.000000`. Both series were sorted in place by `calculateStatistics` before `saveTimeSeries`
wrote them. -/
theorem series_files_are_sorted :
    ((interruptLoop (fun i => InterruptIter.mk ⟨0, 10000000 * i⟩ ⟨0, 10000000 * i + 1000⟩
        (10000000 * i + 2000000 - 1000000 * i)) 2).1.map (fun x => printf_6f (F32.stored x))
        = ["2.000000", "1.000000"] ∧
      ∃ r, determineInterruptLatency
          (fun i => InterruptIter.mk ⟨0, 10000000 * i⟩ ⟨0, 10000000 * i + 1000⟩
            (10000000 * i + 2000000 - 1000000 * i)) (fun _ => true) 2 = Except.ok r ∧
        r.digitalWriteStart_to_interrupt
          = some ["# Time series data. Unit is milliseconds.", "1.000000", "2.000000"]) ∧
    ((∃ s, timedLoop false
          (fun i => TimedIter.mk 1 1 (i % 256) ⟨0, 50000000 * i⟩
            ⟨0, 50000000 * i + 500000 - 300000 * i⟩
            ⟨0, 50000000 * i + 3000000 - 2000000 * i⟩ 0)
          2 0 (TimedSeries.mk [] [] [] []) = Except.ok s ∧
        s.timeTotal.map (fun x => printf_6f (F32.stored x)) = ["3.000000", "1.000000"]) ∧
      ∃ r, timedSerialTest false
          (fun i => TimedIter.mk 1 1 (i % 256) ⟨0, 50000000 * i⟩
            ⟨0, 50000000 * i + 500000 - 300000 * i⟩
            ⟨0, 50000000 * i + 3000000 - 2000000 * i⟩ 0)
          (fun _ => true) 2 = Except.ok (TimedOutcome.finished r) ∧
        r.startWrite_to_endRead
          = some ["# Time series data. Unit is milliseconds.", "1.000000", "3.000000"]) := by
  refine ⟨⟨by decide, _, rfl, by decide⟩, ⟨_, rfl, by decide⟩, _, rfl, by decide⟩

/-- The sign bit of a stored sample is that of the C result: set exactly when
`end <= start`, the zero sample of equal time stamps (`-0.0f`) included. -/
theorem stored_getMilliseconds (s e : Nat) :
    (F32.stored (getMilliseconds s e)).signbit = decide (e ≤ s) := by
  unfold F32.stored
  simp only
  rcases Nat.lt_or_ge s e with h | h
  · have hpos : 0 < getMilliseconds s e := by
      rw [getMilliseconds_pos_branch h]
      exact F32.div_million_pos (F32.ofNat_one_le (by omega))
    have h1 : ¬ getMilliseconds s e ≤ 0 := not_le.mpr hpos
    have h2 : ¬ e ≤ s := by omega
    simp [h1, h2]
  · have hle : getMilliseconds s e ≤ 0 := by
      rw [getMilliseconds_neg_branch h]
      exact Int.neg_nonpos_of_nonneg (F32.div_million_nonneg (F32.ofNat_nonneg _))
    simp [hle, h]

set_option maxRecDepth 100000 in
/-- C9, amended: whenever the file can be opened, for every series `S` of length `n`,
`saveTimeSeries` writes exactly `n + 1` lines: first the `#` comment line, then for
`k = 0 .. n - 1` the value `S[k]` in the conversion `%.6f` (fixed notation, six fractional
digits), in the order given; for `[1.0, 2.5]` the value lines are `1.000000` then `2.500000`.
The conversion keeps the sign bit: `-0.0f`, the sample of two equal time stamps, is written as
`-0.000000`, and `+0.0f` as `0.000000`. -/
theorem saveTimeSeries_lines (S : List StoredFloat) :
    (∃ lines, saveTimeSeries S true = some lines ∧ lines.length = S.length + 1 ∧
      lines[0]? = some "# Time series data. Unit is milliseconds." ∧
      ∀ k, lines[k + 1]? = (S[k]?).map printf_6f) ∧
    (∀ x : StoredFloat, ∃ front frac, (printf_6f x).data = front ++ '.' :: frac ∧
      frac.length = 6 ∧ frac.all Char.isDigit = true) ∧
    saveTimeSeries [F32.stored (F32.ofNat 1), F32.stored (F32.div (F32.ofNat 5) (F32.ofNat 2))]
        true
      = some ["# Time series data. Unit is milliseconds.", "1.000000", "2.500000"] ∧
    (F32.stored (F32.ofNat 1) = StoredFloat.mk false (2 ^ 149) ∧
      F32.stored (F32.div (F32.ofNat 5) (F32.ofNat 2)) = StoredFloat.mk false (5 * 2 ^ 148)) ∧
    (printf_6f (StoredFloat.mk true 0) = "-0.000000" ∧
      printf_6f (StoredFloat.mk false 0) = "0.000000" ∧
      F32.stored (getMilliseconds 5 5) = StoredFloat.mk true 0 ∧
      saveTimeSeries [F32.stored (getMilliseconds 5 5)] true
        = some ["# Time series data. Unit is milliseconds.", "-0.000000"]) := by
  refine ⟨⟨_, rfl, by simp, by simp, fun k => by simp⟩, ?_, by decide,
    ⟨by decide, by decide⟩, by decide, by decide, by decide, by decide⟩
  intro x
  refine ⟨(if x.signbit then ['-'] else []) ++
      decimal (F32.nearestEven (x.magnitude * 10 ^ 6) F32.one / 10 ^ 6),
    sixDigits (F32.nearestEven (x.magnitude * 10 ^ 6) F32.one), ?_,
    (sixDigits_spec _).1, (sixDigits_spec _).2⟩
  unfold printf_6f
  simp only [List.append_assoc]

/-- C9, counterexample: when `fopen` fails, `saveTimeSeries` writes no line at all. -/
theorem saveTimeSeries_unopened :
    saveTimeSeries [F32.stored (F32.ofNat 1), F32.stored (F32.div (F32.ofNat 5) (F32.ofNat 2))]
      false = none := rfl

/-! ## C10: bulk campaign -/

theorem bulkCalls_length (N : Nat) : ∀ fuel i, (bulkCalls N fuel i).length = 2 * fuel := by
  intro fuel
  induction fuel with
  | zero => intro i; rfl
  | succ f ih => intro i; simp only [bulkCalls, List.length_cons, ih]; omega

theorem bulkCalls_getElem (N : Nat) : ∀ fuel i j, j < fuel →
    (bulkCalls N fuel i)[2 * j]? = some (ChannelOp.write (List.replicate N ((i + j) % 256))) ∧
    (bulkCalls N fuel i)[2 * j + 1]? = some (ChannelOp.read N) := by
  intro fuel
  induction fuel with
  | zero => intro i j h; omega
  | succ f ih =>
    intro i j h
    cases j with
    | zero => simp [bulkCalls]
    | succ j =>
      have := ih (i + 1) j (by omega)
      have e1 : 2 * (j + 1) = (2 * j) + 1 + 1 := by ring
      have e2 : 2 * (j + 1) + 1 = (2 * j + 1) + 1 + 1 := by ring
      have e3 : i + (j + 1) = i + 1 + j := by ring
      rw [e2, e1, e3]
      simpa [bulkCalls] using this

theorem bulkLoop_pass (N : Nat) (chan : Nat → BulkIter) : ∀ fuel i log,
    (∀ j, i ≤ j → j < i + fuel → BulkPass N chan j) →
    bulkLoop N chan fuel i log = (none, log ++ bulkCalls N fuel i) := by
  intro fuel
  induction fuel with
  | zero => intro i log _; simp [bulkLoop, bulkCalls]
  | succ f ih =>
    intro i log h
    obtain ⟨h1, h2, h3⟩ := h i le_rfl (by omega)
    unfold bulkLoop
    simp only [transferred, h1, h2, h3, decide_True, not_true_eq_false, if_false, ne_eq,
      Bool.not_eq_true, decide_eq_false_iff_not]
    rw [ih (i + 1) _ (fun j hj1 hj2 => h j (by omega) (by omega))]
    simp [bulkCalls]

theorem bulkLoop_mismatch (N : Nat) (chan : Nat → BulkIter) : ∀ fuel i log k,
    i ≤ k → k < i + fuel → (∀ j, i ≤ j → j < k → BulkPass N chan j) →
    (chan k).written_i = N → (chan k).read_i = N →
    (chan k).readBuffer[0]? ≠ some (k % 256) →
    bulkLoop N chan fuel i log = (some 22, log ++ bulkCalls N (k + 1 - i) i) := by
  intro fuel
  induction fuel with
  | zero => intro i log k h1 h2; omega
  | succ f ih =>
    intro i log k hik hk hpass hw hr hb
    rcases Nat.eq_or_lt_of_le hik with heq | hlt
    · subst heq
      unfold bulkLoop
      have hb' : ¬ some (i % 256) = (chan i).readBuffer[0]? := fun h => hb h.symm
      have e : i + 1 - i = 1 := by omega
      simp [transferred, hw, hr, hb', e, bulkCalls]
    · obtain ⟨h1, h2, h3⟩ := hpass i le_rfl hlt
      unfold bulkLoop
      simp only [transferred, h1, h2, h3, decide_True, not_true_eq_false, if_false, ne_eq,
        Bool.not_eq_true, decide_eq_false_iff_not]
      rw [ih (i + 1) _ k (by omega) (by omega) (fun j hj1 hj2 => hpass j (by omega) hj2) hw hr hb]
      have e : k + 1 - i = (k + 1 - (i + 1)) + 1 := by omega
      rw [e]
      simp [bulkCalls]


theorem F32.div_nonneg {a b : F32} (ha : 0 ≤ a) (hb : 0 ≤ b) : 0 ≤ F32.div a b := by
  unfold F32.div
  apply F32.round_nonneg
  exact mul_nonneg (mul_nonneg ha (Int.sign_nonneg.mpr hb)) (Int.natCast_nonneg _)

theorem getMilliseconds_nonneg {s e : Nat} (h : s ≤ e) : 0 ≤ getMilliseconds s e := by
  rcases Nat.eq_or_lt_of_le h with heq | hlt
  · subst heq
    rw [getMilliseconds_neg_branch le_rfl, Nat.sub_self]
    have : F32.div (F32.ofNat 0) F32.million = 0 := by
      rw [F32.div_million, F32.ofNat_eq, Nat.zero_mul, F32.roundNat_zero]
      simp [F32.round_zero]
    rw [this]
    simp
  · rw [getMilliseconds_pos_branch hlt]
    exact F32.div_million_nonneg (F32.ofNat_nonneg _)

/-- C10, amended: bulk campaign, for every chunk size `N >= 1`, every channel script and clock
readings `start <= end`. If in each of the 1200 iterations the write and the read return `N` and
the read delivers the `N` bytes just written, all 1200 iterations run, iteration `i` writing `N`
bytes equal to `i mod 256` and then reading `N` bytes, and the reported average is non-negative.
If the iterations before `k` pass their checks and in iteration `k` both transfers return `N` but
the first byte read differs from the byte written, `main` returns 22 in iteration `k`: the
channel calls are those of the iterations `0 .. k` and none follows. (Only the first byte read
is compared.) -/
theorem bulkSerialTest_echo_and_mismatch (numBytes_ui : Nat) (chan : Nat → BulkIter)
    (startNs_ui endNs_ui : Nat) (hN : 1 ≤ numBytes_ui) (hclock : startNs_ui ≤ endNs_ui) :
    ((∀ i, i < 1200 → (chan i).written_i = numBytes_ui ∧ (chan i).read_i = numBytes_ui ∧
        (chan i).readBuffer = List.replicate numBytes_ui (i % 256)) →
      ∃ avg log, bulkSerialTest numBytes_ui chan startNs_ui endNs_ui
          = (BulkOutcome.average avg, log) ∧ 0 ≤ avg ∧ log.length = 2 * 1200 ∧
        ∀ i, i < 1200 →
          log[2 * i]? = some (ChannelOp.write (List.replicate numBytes_ui (i % 256))) ∧
          log[2 * i + 1]? = some (ChannelOp.read numBytes_ui)) ∧
    (∀ k, k < 1200 → (∀ i, i < k → BulkPass numBytes_ui chan i) →
      (chan k).written_i = numBytes_ui → (chan k).read_i = numBytes_ui →
      (chan k).readBuffer[0]? ≠ some (k % 256) →
      ∃ log, bulkSerialTest numBytes_ui chan startNs_ui endNs_ui
          = (BulkOutcome.returned 22, log) ∧ log.length = 2 * (k + 1) ∧
        ∀ i, i ≤ k →
          log[2 * i]? = some (ChannelOp.write (List.replicate numBytes_ui (i % 256))) ∧
          log[2 * i + 1]? = some (ChannelOp.read numBytes_ui)) := by
  constructor
  · intro h
    have hpass : ∀ j, 0 ≤ j → j < 0 + 1200 → BulkPass numBytes_ui chan j := by
      intro j _ hj
      obtain ⟨h1, h2, h3⟩ := h j (by omega)
      refine ⟨h1, h2, ?_⟩
      rw [h3]
      cases numBytes_ui with
      | zero => omega
      | succ n => simp [List.replicate]
    have hl := bulkLoop_pass numBytes_ui chan 1200 0 [] hpass
    refine ⟨F32.div (getMilliseconds startNs_ui endNs_ui) (F32.ofNat 1200),
      bulkCalls numBytes_ui 1200 0, ?_, ?_, bulkCalls_length _ _ _, ?_⟩
    · unfold bulkSerialTest
      simp only [hl, List.nil_append]
    · exact F32.div_nonneg (getMilliseconds_nonneg hclock) (F32.ofNat_nonneg _)
    · intro i hi
      simpa using bulkCalls_getElem numBytes_ui 1200 0 i hi
  · intro k hk hpass hw hr hb
    have hl := bulkLoop_mismatch numBytes_ui chan 1200 0 [] k (Nat.zero_le _) (by omega)
      (fun j _ hj => hpass j hj) hw hr hb
    refine ⟨bulkCalls numBytes_ui (k + 1) 0, ?_, bulkCalls_length _ _ _, ?_⟩
    · unfold bulkSerialTest
      simp only [hl, List.nil_append, Nat.sub_zero]
    · intro i hi
      simpa using bulkCalls_getElem numBytes_ui (k + 1) 0 i (by omega)

/-- C10, witness: chunk size 1 on a channel that echoes every byte, clock readings `0` and
`1200000000` ns. -/
theorem bulkSerialTest_echo_and_mismatch_witness :
    ∃ avg log, bulkSerialTest 1 (fun i => BulkIter.mk 1 1 [i % 256]) 0 1200000000
        = (BulkOutcome.average avg, log) ∧ 0 ≤ avg ∧ log.length = 2 * 1200 ∧
      ∀ i, i < 1200 →
        log[2 * i]? = some (ChannelOp.write (List.replicate 1 (i % 256))) ∧
        log[2 * i + 1]? = some (ChannelOp.read 1) :=
  (bulkSerialTest_echo_and_mismatch 1 (fun i => BulkIter.mk 1 1 [i % 256]) 0 1200000000
    (by decide) (by decide)).1 (fun _ _ => ⟨rfl, rfl, rfl⟩)

/-- C10, counterexample: chunk size 2; in iteration 0 the channel returns the bytes `[0, 1]` for
the written `[0, 0]`, and echoes faithfully afterwards. The echoed data differs from the written
data in iteration 0, yet the campaign runs all 1200 iterations (2400 channel calls) and reports
an average instead of returning 22. -/
theorem bulkSerialTest_later_byte_unchecked :
    (BulkIter.mk 2 2 [0, 1]).readBuffer ≠ List.replicate 2 (0 % 256) ∧
    ∃ avg log, bulkSerialTest 2
        (fun i => BulkIter.mk 2 2 (if i = 0 then [0, 1] else List.replicate 2 (i % 256)))
        0 1200000000 = (BulkOutcome.average avg, log) ∧ log.length = 2 * 1200 := by
  refine ⟨by decide, ?_⟩
  have hpass : ∀ j, 0 ≤ j → j < 0 + 1200 → BulkPass 2
      (fun i => BulkIter.mk 2 2 (if i = 0 then [0, 1] else List.replicate 2 (i % 256))) j := by
    intro j _ _
    refine ⟨rfl, rfl, ?_⟩
    by_cases hj : j = 0
    · subst hj; rfl
    · simp [hj, List.replicate]
  have hl := bulkLoop_pass 2 _ 1200 0 [] hpass
  refine ⟨F32.div (getMilliseconds 0 1200000000) (F32.ofNat 1200), bulkCalls 2 1200 0, ?_,
    bulkCalls_length _ _ _⟩
  unfold bulkSerialTest
  simp only [hl, List.nil_append]

/-! ## C11, C12: event-correlation poller -/

theorem timeWriteRead_isSome_iff (env : TimedIter) (b : Nat) :
    (timeWriteRead env b).isSome = true ↔
      env.written_i = 1 ∧ env.read_i = 1 ∧ env.readChar_ui = b := by
  unfold timeWriteRead
  by_cases h1 : env.written_i = 1
  · by_cases h2 : env.read_i = 1
    · by_cases h3 : b = env.readChar_ui
      · simp [h1, h2, h3]
      · have h3' : ¬ env.readChar_ui = b := fun e => h3 e.symm
        simp [h1, h2, h3, h3']
    · simp [h1, h2]
  · simp [h1]

theorem timeWriteRead_eq_some {env : TimedIter} {b : Nat}
    (h : (timeWriteRead env b).isSome = true) :
    timeWriteRead env b = some (GET_NANOSECONDS env.timeBeforeWrite,
      GET_NANOSECONDS env.timeAfterWrite, GET_NANOSECONDS env.timeAfterRead) := by
  obtain ⟨h1, h2, h3⟩ := (timeWriteRead_isSome_iff env b).1 h
  unfold timeWriteRead
  simp [h1, h2, h3]

theorem timeWriteRead_eq_none {env : TimedIter} {b : Nat}
    (h : (timeWriteRead env b).isSome = false) : timeWriteRead env b = none := by
  cases h' : timeWriteRead env b with
  | none => rfl
  | some x => rw [h'] at h; cases h

/-- The loop on iterations that all pass: every iteration appends one sample to each of the
three serial series, and one interrupt sample when the build is paired, `0 < i`, and the byte
is even. -/
theorem timedLoop_pass (paired : Bool) (env : Nat → TimedIter) :
    ∀ fuel i s,
      (∀ j, i ≤ j → j < i + fuel → (timeWriteRead (env j) (j % 256)).isSome = true) →
      timedLoop paired env fuel i s = Except.ok (TimedSeries.mk
        (s.timeToInterrupt ++ ((List.range' i fuel).filter
            (fun j => decide (paired = true ∧ 0 < j ∧ j % 256 % 2 = 0))).map
          (fun j => getMilliseconds (GET_NANOSECONDS (env j).timeBeforeWrite)
            (env j).g_timeInterrupt_ui))
        (s.timeOfWrite ++ (List.range' i fuel).map
          (fun j => getMilliseconds (GET_NANOSECONDS (env j).timeBeforeWrite)
            (GET_NANOSECONDS (env j).timeAfterWrite)))
        (s.timeToRead ++ (List.range' i fuel).map
          (fun j => getMilliseconds (GET_NANOSECONDS (env j).timeAfterWrite)
            (GET_NANOSECONDS (env j).timeAfterRead)))
        (s.timeTotal ++ (List.range' i fuel).map
          (fun j => getMilliseconds (GET_NANOSECONDS (env j).timeBeforeWrite)
            (GET_NANOSECONDS (env j).timeAfterRead)))) := by
  intro fuel
  induction fuel with
  | zero => intro i s _; simp [timedLoop]
  | succ f ih =>
    intro i s h
    have hi := timeWriteRead_eq_some (h i le_rfl (by omega))
    unfold timedLoop
    simp only [hi]
    rw [ih (i + 1) _ (fun j h1 h2 => h j (by omega) (by omega))]
    by_cases hc : paired = true ∧ 0 < i ∧ i % 256 % 2 = 0
    · simp [List.range'_succ, hc, List.filter_cons]
    · simp [List.range'_succ, hc, List.filter_cons]

/-- The loop returns in the first iteration that fails, with the series of the iterations
before it. -/
theorem timedLoop_fail (paired : Bool) (env : Nat → TimedIter) :
    ∀ m fuel i s, m < fuel →
      (∀ j, i ≤ j → j < i + m → (timeWriteRead (env j) (j % 256)).isSome = true) →
      (timeWriteRead (env (i + m)) ((i + m) % 256)).isSome = false →
      ∃ s', timedLoop paired env m i s = Except.ok s' ∧
        timedLoop paired env fuel i s = Except.error (i + m, s') := by
  intro m
  induction m with
  | zero =>
    intro fuel i s hf _ hfail
    obtain ⟨f, rfl⟩ : ∃ f, fuel = f + 1 := ⟨fuel - 1, by omega⟩
    refine ⟨s, rfl, ?_⟩
    rw [Nat.add_zero] at hfail
    have := timeWriteRead_eq_none hfail
    unfold timedLoop
    simp only [this, Nat.add_zero]
  | succ m ih =>
    intro fuel i s hf hpass hfail
    obtain ⟨f, rfl⟩ : ∃ f, fuel = f + 1 := ⟨fuel - 1, by omega⟩
    have hi := timeWriteRead_eq_some (hpass i le_rfl (by omega))
    have e : i + 1 + m = i + (m + 1) := by ring
    obtain ⟨s', h1, h2⟩ := ih f (i + 1)
      (TimedSeries.mk
        (if paired = true ∧ 0 < i ∧ i % 256 % 2 = 0 then
          s.timeToInterrupt ++ [getMilliseconds (GET_NANOSECONDS (env i).timeBeforeWrite)
            (env i).g_timeInterrupt_ui]
        else s.timeToInterrupt)
        (s.timeOfWrite ++ [getMilliseconds (GET_NANOSECONDS (env i).timeBeforeWrite)
          (GET_NANOSECONDS (env i).timeAfterWrite)])
        (s.timeToRead ++ [getMilliseconds (GET_NANOSECONDS (env i).timeAfterWrite)
          (GET_NANOSECONDS (env i).timeAfterRead)])
        (s.timeTotal ++ [getMilliseconds (GET_NANOSECONDS (env i).timeBeforeWrite)
          (GET_NANOSECONDS (env i).timeAfterRead)]))
      (by omega) (fun j a b => hpass j (by omega) (by omega)) (by rwa [e])
    refine ⟨s', ?_, ?_⟩
    · rw [← h1]
      conv_lhs => unfold timedLoop
      simp only [hi]
    · rw [← e, ← h2]
      conv_lhs => unfold timedLoop
      simp only [hi]

/-- A loop that runs to its end has passed every iteration. -/
theorem timedLoop_ok_pass (paired : Bool) (env : Nat → TimedIter) :
    ∀ fuel i s s', timedLoop paired env fuel i s = Except.ok s' →
      ∀ j, i ≤ j → j < i + fuel → (timeWriteRead (env j) (j % 256)).isSome = true := by
  intro fuel
  induction fuel with
  | zero => intro i s s' _ j h1 h2; omega
  | succ f ih =>
    intro i s s' h j h1 h2
    unfold timedLoop at h
    cases hw : timeWriteRead (env i) (i % 256) with
    | none => simp only [hw] at h; cases h
    | some t =>
      obtain ⟨a, b, c⟩ := t
      simp only [hw] at h
      rcases Nat.eq_or_lt_of_le h1 with e | hlt
      · subst e; rw [hw]; rfl
      · exact ih (i + 1) _ s' h j (by omega) (by omega)

/-- C14: `timeWriteRead` returns `true` if and only if the one-byte write returned `1`, the
one-byte read returned `1` and the byte read equals the byte written. At the first iteration `k`
where it returns `false`, the campaign ends with `return 30`; the series at that moment are those
of the `k` iterations before (`k` samples each in the three serial series), so nothing was
appended for iteration `k`, and what the environment would answer in later iterations plays no
part. -/
theorem timedSerialTest_fail_fast (paired : Bool) (env : Nat → TimedIter)
    (fopen : String → Bool) (n k : Nat) (hk : k < n)
    (hpass : ∀ i, i < k → (timeWriteRead (env i) (i % 256)).isSome = true)
    (hfail : (timeWriteRead (env k) (k % 256)).isSome = false) :
    (∀ (e : TimedIter) (b : Nat), (timeWriteRead e b).isSome = true ↔
      e.written_i = 1 ∧ e.read_i = 1 ∧ e.readChar_ui = b) ∧
    timedSerialTest paired env fopen n = Except.ok (TimedOutcome.failed k) ∧
    ∃ s, timedLoop paired env n 0 (TimedSeries.mk [] [] [] []) = Except.error (k, s) ∧
      timedLoop paired env k 0 (TimedSeries.mk [] [] [] []) = Except.ok s ∧
      s.timeOfWrite.length = k ∧ s.timeToRead.length = k ∧ s.timeTotal.length = k ∧
      s.timeToInterrupt.length ≤ k := by
  obtain ⟨s, h1, h2⟩ := timedLoop_fail paired env k n 0 (TimedSeries.mk [] [] [] []) hk
    (fun j _ h => hpass j (by omega)) (by rwa [Nat.zero_add])
  rw [Nat.zero_add] at h2
  refine ⟨timeWriteRead_isSome_iff, ?_, s, h2, h1, ?_⟩
  · unfold timedSerialTest
    rw [h2]
    rfl
  · have h3 := timedLoop_pass paired env k 0 (TimedSeries.mk [] [] [] [])
      (fun j _ h => hpass j (by omega))
    rw [h1] at h3
    injection h3 with h3
    subst h3
    refine ⟨by simp, by simp, by simp, ?_⟩
    simp only [List.nil_append, List.length_map]
    exact le_trans (List.length_filter_le _ _) (by simp)

/-- C14, witness: five iterations, the channel answers `99` for the byte `2` in iteration 2. -/
theorem timedSerialTest_fail_fast_witness :
    timedSerialTest false (fun i => TimedIter.mk 1 1 (if i = 2 then 99 else i % 256)
        ⟨0, 0⟩ ⟨0, 0⟩ ⟨0, 0⟩ 0) (fun _ => true) 5 = Except.ok (TimedOutcome.failed 2) :=
  (timedSerialTest_fail_fast false (fun i => TimedIter.mk 1 1 (if i = 2 then 99 else i % 256)
      ⟨0, 0⟩ ⟨0, 0⟩ ⟨0, 0⟩ 0) (fun _ => true) 5 2 (by decide)
    (fun i hi => (timeWriteRead_isSome_iff _ _).2 ⟨rfl, rfl, by
      have : i ≠ 2 := by omega
      simp [this]⟩)
    (by decide)).2.1

/-! ## C15: privileged event source -/

theorem dispatch_counter_le (st : GpioTiming) (q : Irq) :
    (dispatch st q).inttest_counter_ui ≤ st.inttest_counter_ui + 1 ∧
    (dispatch st q).arduino_counter_ui ≤ st.arduino_counter_ui + 1 := by
  cases q with
  | inttest t =>
    simp only [dispatch, gpiotiming_inttest_irq_handler]
    exact ⟨Nat.mod_le _ _, by omega⟩
  | arduino t =>
    simp only [dispatch, gpiotiming_arduino_irq_handler]
    exact ⟨by omega, Nat.mod_le _ _⟩

theorem foldl_dispatch_counter_le (irqs : List Irq) : ∀ st : GpioTiming,
    (irqs.foldl dispatch st).inttest_counter_ui ≤ st.inttest_counter_ui + irqs.length ∧
    (irqs.foldl dispatch st).arduino_counter_ui ≤ st.arduino_counter_ui + irqs.length := by
  induction irqs with
  | nil => intro st; simp
  | cons q irqs ih =>
    intro st
    obtain ⟨h1, h2⟩ := ih (dispatch st q)
    obtain ⟨h3, h4⟩ := dispatch_counter_le st q
    simp only [List.foldl_cons, List.length_cons]
    omega

/-- C15: privileged event source. Initialisation sets both counters to `0`; the handler of a
pin increases the counter of that pin by exactly 1 modulo `2 ^ 32`, sets the time stamp of that
pin to the clock value, and leaves counter and time stamp of the other pin unchanged; along any
sequence of fewer than `2 ^ 32` interrupts after initialisation no counter decreases. -/
theorem event_source_state (st : GpioTiming) (now now1 now2 : Nat) :
    ((gpiotiming_init now1 now2).inttest_counter_ui = 0 ∧
      (gpiotiming_init now1 now2).arduino_counter_ui = 0) ∧
    ((gpiotiming_inttest_irq_handler now st).1.inttest_counter_ui
        = (st.inttest_counter_ui + 1) % 2 ^ 32 ∧
      (gpiotiming_inttest_irq_handler now st).1.inttest_timestamp_ui = now ∧
      (gpiotiming_inttest_irq_handler now st).1.arduino_counter_ui = st.arduino_counter_ui ∧
      (gpiotiming_inttest_irq_handler now st).1.arduino_timestamp_ui
        = st.arduino_timestamp_ui) ∧
    ((gpiotiming_arduino_irq_handler now st).1.arduino_counter_ui
        = (st.arduino_counter_ui + 1) % 2 ^ 32 ∧
      (gpiotiming_arduino_irq_handler now st).1.arduino_timestamp_ui = now ∧
      (gpiotiming_arduino_irq_handler now st).1.inttest_counter_ui = st.inttest_counter_ui ∧
      (gpiotiming_arduino_irq_handler now st).1.inttest_timestamp_ui
        = st.inttest_timestamp_ui) ∧
    (∀ (irqs : List Irq) (q : Irq), irqs.length + 1 < 2 ^ 32 →
      (irqs.foldl dispatch (gpiotiming_init now1 now2)).inttest_counter_ui
          ≤ (dispatch (irqs.foldl dispatch (gpiotiming_init now1 now2)) q).inttest_counter_ui ∧
        (irqs.foldl dispatch (gpiotiming_init now1 now2)).arduino_counter_ui
          ≤ (dispatch (irqs.foldl dispatch (gpiotiming_init now1 now2)) q).arduino_counter_ui)
    := by
  refine ⟨⟨rfl, rfl⟩, ⟨rfl, rfl, rfl, rfl⟩, ⟨rfl, rfl, rfl, rfl⟩, ?_⟩
  intro irqs q hlen
  obtain ⟨h1, h2⟩ := foldl_dispatch_counter_le irqs (gpiotiming_init now1 now2)
  have e1 : (gpiotiming_init now1 now2).inttest_counter_ui = 0 := rfl
  have e2 : (gpiotiming_init now1 now2).arduino_counter_ui = 0 := rfl
  rw [e1] at h1
  rw [e2] at h2
  cases q with
  | inttest t =>
    simp only [dispatch, gpiotiming_inttest_irq_handler]
    refine ⟨?_, le_rfl⟩
    rw [Nat.mod_eq_of_lt (by omega)]
    omega
  | arduino t =>
    simp only [dispatch, gpiotiming_arduino_irq_handler]
    refine ⟨le_rfl, ?_⟩
    rw [Nat.mod_eq_of_lt (by omega)]
    omega

/-! ## C16: serial port configuration -/

/-- C16, the code at the failing input: for the chunk size `256` the configured minimum byte
count `c_cc[VMIN]` is `0`, for `300` it is `44`. In general it is `N mod 256`, and equals `N`
exactly for `N < 256`. -/
theorem initializeSerialPort_VMIN_truncated :
    (initializeSerialPort 0 0 256).1.c_cc_VMIN = 0 ∧
    (initializeSerialPort 0 0 300).1.c_cc_VMIN = 44 ∧
    (∀ (tcsetattr_rc fcntl_rc : Int) (N : Nat),
      (initializeSerialPort tcsetattr_rc fcntl_rc N).1.c_cc_VMIN = N % 256 ∧
      ((initializeSerialPort tcsetattr_rc fcntl_rc N).1.c_cc_VMIN = N ↔ N < 256)) := by
  refine ⟨by decide, by decide, ?_⟩
  intro a b N
  have h : (initializeSerialPort a b N).1.c_cc_VMIN = N % 256 := by
    unfold initializeSerialPort
    simp only
    split_ifs <;> rfl
  refine ⟨h, ?_⟩
  rw [h]
  constructor
  · intro e
    have := Nat.mod_lt N (by norm_num : 0 < 256)
    omega
  · intro hlt
    exact Nat.mod_eq_of_lt hlt

/-! ## C17: command line -/

theorem foldl_only (l : List Campaign) : ∀ e : Bool × Bool × Bool,
    l.foldl (fun _ c => only c) e
      = match l.getLast? with
        | none => e
        | some c => only c := by
  induction l with
  | nil => intro e; rfl
  | cons a l ih =>
    intro e
    rw [List.foldl_cons, ih]
    cases l with
    | nil => rfl
    | cons b l =>
      obtain ⟨c, hc⟩ : ∃ c, (b :: l).getLast? = some c :=
        ⟨_, List.getLast?_eq_getLast _ (List.cons_ne_nil _ _)⟩
      rw [List.getLast?_cons_cons, hc]

theorem modeFlagsParsed_flag {arg : String} {c : Campaign} (rest : List String)
    (ht : takesValue arg = false) (hm : modeFlag arg = some c) :
    modeFlagsParsed (arg :: rest) = c :: modeFlagsParsed rest := by
  conv_lhs => unfold modeFlagsParsed
  simp [ht, hm]

theorem modeFlagsParsed_other {arg : String} (rest : List String)
    (ht : takesValue arg = false) (hm : modeFlag arg = none) :
    modeFlagsParsed (arg :: rest) = modeFlagsParsed rest := by
  conv_lhs => unfold modeFlagsParsed
  simp [ht, hm]

theorem modeFlagsParsed_value {arg : String} (v : String) (rest : List String)
    (ht : takesValue arg = true) :
    modeFlagsParsed (arg :: v :: rest) = modeFlagsParsed rest := by
  conv_lhs => unfold modeFlagsParsed
  simp [ht]

theorem parseArgs_enabled (atoi : String → Int) : ∀ (n : Nat) (args : List String),
    args.length ≤ n → ∀ o o' : Options, parseArgs atoi args o = some o' →
      o'.enabled = (modeFlagsParsed args).foldl (fun _ c => only c) o.enabled := by
  intro n
  induction n with
  | zero =>
    intro args hlen o o' h
    have : args = [] := List.length_eq_zero.mp (by omega)
    subst this
    simp only [parseArgs, Option.some.injEq] at h
    subst h
    rfl
  | succ n ih =>
    intro args hlen o o' h
    cases args with
    | nil =>
      simp only [parseArgs, Option.some.injEq] at h
      subst h
      rfl
    | cons arg rest =>
      have hrest : rest.length ≤ n := by simpa using hlen
      unfold parseArgs at h
      by_cases c1 : arg = "-h" ∨ arg = "--help"
      · rw [if_pos c1] at h; cases h
      rw [if_neg c1] at h
      by_cases c2 : arg = "-l" ∨ arg = "--latency"
      · rw [if_pos c2] at h
        cases rest with
        | nil => cases h
        | cons v rest =>
          have := ih rest (by simp at hrest; omega) _ o' h
          rw [this]
          have ht : takesValue arg = true := by
            rcases c2 with e | e <;> subst e <;> decide
          rw [modeFlagsParsed_value v rest ht]
          rfl
      rw [if_neg c2] at h
      by_cases c3 : arg = "-s" ∨ arg = "--size"
      · rw [if_pos c3] at h
        cases rest with
        | nil => cases h
        | cons v rest =>
          have := ih rest (by simp at hrest; omega) _ o' h
          rw [this]
          have ht : takesValue arg = true := by
            rcases c3 with e | e <;> subst e <;> decide
          rw [modeFlagsParsed_value v rest ht]
          rfl
      rw [if_neg c3] at h
      by_cases c4 : arg = "-i" ∨ arg = "--interrupt"
      · rw [if_pos c4] at h
        have := ih rest hrest _ o' h
        rw [this]
        have ht : takesValue arg = false := by
          rcases c4 with e | e <;> subst e <;> decide
        have hm : modeFlag arg = some Campaign.interrupt := by
          rcases c4 with e | e <;> subst e <;> decide
        rw [modeFlagsParsed_flag rest ht hm, List.foldl_cons]
        rfl
      rw [if_neg c4] at h
      by_cases c5 : arg = "--iloops"
      · rw [if_pos c5] at h
        cases rest with
        | nil => cases h
        | cons v rest =>
          have := ih rest (by simp at hrest; omega) _ o' h
          rw [this]
          have ht : takesValue arg = true := by
            subst c5; decide
          rw [modeFlagsParsed_value v rest ht]
          rfl
      rw [if_neg c5] at h
      by_cases c6 : arg = "-b" ∨ arg = "--bulk"
      · rw [if_pos c6] at h
        have := ih rest hrest _ o' h
        rw [this]
        have ht : takesValue arg = false := by
          rcases c6 with e | e <;> subst e <;> decide
        have hm : modeFlag arg = some Campaign.bulk := by
          rcases c6 with e | e <;> subst e <;> decide
        rw [modeFlagsParsed_flag rest ht hm, List.foldl_cons]
        rfl
      rw [if_neg c6] at h
      by_cases c7 : arg = "-t" ∨ arg = "--timed"
      · rw [if_pos c7] at h
        have := ih rest hrest _ o' h
        rw [this]
        have ht : takesValue arg = false := by
          rcases c7 with e | e <;> subst e <;> decide
        have hm : modeFlag arg = some Campaign.timed := by
          rcases c7 with e | e <;> subst e <;> decide
        rw [modeFlagsParsed_flag rest ht hm, List.foldl_cons]
        rfl
      rw [if_neg c7] at h
      by_cases c8 : arg = "--tloops"
      · rw [if_pos c8] at h
        cases rest with
        | nil => cases h
        | cons v rest =>
          have := ih rest (by simp at hrest; omega) _ o' h
          rw [this]
          have ht : takesValue arg = true := by
            subst c8; decide
          rw [modeFlagsParsed_value v rest ht]
          rfl
      rw [if_neg c8] at h
      by_cases c9 : arg.data.head? = some '-'
      · rw [if_pos c9] at h; cases h
      rw [if_neg c9] at h
      by_cases c10 : o.serialDevice = ""
      · rw [if_pos c10] at h
        have := ih rest hrest _ o' h
        rw [this]
        have ht : takesValue arg = false := by
          simp only [takesValue, decide_eq_false_iff_not]
          tauto
        have hm : modeFlag arg = none := by
          simp only [modeFlag, c4, c6, c7, if_false]
        rw [modeFlagsParsed_other rest ht hm]
        rfl
      · rw [if_neg c10] at h; cases h

/-- C17, amended: for every argument list that parses without a usage error, if no mode flag
stands in option position all three campaigns are enabled, and otherwise exactly one campaign is
enabled, the one named by the last mode flag in option position. A mode flag that directly
follows `-l`, `-s`, `--iloops` or `--tloops` is taken as the value of that option and selects
nothing. -/
theorem parseArgs_mode_selection (atoi : String → Int) (args : List String) (o : Options)
    (h : parseArgs atoi args Options.initial = some o) :
    o.enabled = match (modeFlagsParsed args).getLast? with
      | none => (true, true, true)
      | some c => only c := by
  rw [parseArgs_enabled atoi args.length args le_rfl _ o h, foldl_only]
  rfl

/-- C17, witness: the arguments `-t ttyUSB0 -b` enable the bulk campaign only. -/
theorem parseArgs_mode_selection_witness :
    (Options.mk "ttyUSB0" 1 1 false 10000 true false 1200).enabled = only Campaign.bulk :=
  parseArgs_mode_selection (fun _ => 0) ["-t", "ttyUSB0", "-b"]
    (Options.mk "ttyUSB0" 1 1 false 10000 true false 1200) (by decide)

/-- C17, counterexample: the arguments `-b -l -t` parse without usage error; the last mode
flag of the list is `-t`, but it is the value of `-l`, and the bulk campaign stays the one
enabled. -/
theorem parseArgs_mode_flag_taken_as_value :
    parseArgs (fun _ => 0) ["-b", "-l", "-t"] Options.initial
      = some (Options.mk "" 0 1 false 10000 true false 1200) ∧
    (["-b", "-l", "-t"].filterMap modeFlag).getLast? = some Campaign.timed ∧
    (Options.mk "" 0 1 false 10000 true false 1200).enabled ≠ only Campaign.timed := by
  decide

/-! ## C18: sign flip -/

/-- C18: for all distinct time stamps `a` and `b`, `getMilliseconds(b, a)` is the negation of
`getMilliseconds(a, b)`; for `a = 1000000` and `b = 3500000` the results are `2.5` and `-2.5`
milliseconds. -/
theorem getMilliseconds_sign_flip (a b : Nat) (hab : a ≠ b) :
    getMilliseconds b a = -getMilliseconds a b ∧
    F32.toRat (getMilliseconds 1000000 3500000) = 5 / 2 ∧
    F32.toRat (getMilliseconds 3500000 1000000) = -(5 / 2) := by
  refine ⟨?_, ?_, ?_⟩
  · rcases Nat.lt_or_ge a b with h | h
    · rw [getMilliseconds_pos_branch h, getMilliseconds_neg_branch (le_of_lt h)]
    · have h' : b < a := lt_of_le_of_ne h (fun e => hab e.symm)
      rw [getMilliseconds_pos_branch h', getMilliseconds_neg_branch (le_of_lt h'), neg_neg]
  · have : getMilliseconds 1000000 3500000 = ((5 * 2 ^ 148 : Nat) : Int) := by
      set_option maxRecDepth 100000 in decide
    rw [this]
    unfold F32.toRat
    norm_num
  · have : getMilliseconds 3500000 1000000 = -((5 * 2 ^ 148 : Nat) : Int) := by
      set_option maxRecDepth 100000 in decide
    rw [this]
    unfold F32.toRat
    norm_num

set_option maxRecDepth 100000 in
/-- C18, witness: the time stamps `1000000` and `3500000`. -/
theorem getMilliseconds_sign_flip_witness :
    getMilliseconds 3500000 1000000 = -getMilliseconds 1000000 3500000 :=
  (getMilliseconds_sign_flip 1000000 3500000 (by norm_num)).1

/-! ## C19: order of the stores of a handler -/

/-- C19, amended: in each interrupt handler the time stamp is stored first and the counter is
incremented second: in the sequence of stores of the handler the time stamp store precedes the
counter store. -/
theorem handler_store_order (st : GpioTiming) (now : Nat) :
    (gpiotiming_inttest_irq_handler now st).2
      = [Store.inttest_timestamp now,
          Store.inttest_counter ((st.inttest_counter_ui + 1) % 2 ^ 32)] ∧
    (gpiotiming_arduino_irq_handler now st).2
      = [Store.arduino_timestamp now,
          Store.arduino_counter ((st.arduino_counter_ui + 1) % 2 ^ 32)] :=
  ⟨rfl, rfl⟩

/-- C19, counterexample: the arduino handler at clock value `1000` with counter `7`: the stores
are the time stamp `1000`, then the counter `8`, not the counter first. -/
theorem handler_stores_timestamp_first :
    (gpiotiming_arduino_irq_handler 1000 (GpioTiming.mk 0 0 7 500)).2
      = [Store.arduino_timestamp 1000, Store.arduino_counter 8] ∧
    (gpiotiming_arduino_irq_handler 1000 (GpioTiming.mk 0 0 7 500)).2
      ≠ [Store.arduino_counter 8, Store.arduino_timestamp 1000] := by
  decide

/-! ## C20: series handed to the reducer -/

theorem interruptLoop_length (env : Nat → InterruptIter) (n : Nat) :
    (interruptLoop env n).1.length = n ∧ (interruptLoop env n).2.length = n := by
  unfold interruptLoop
  induction n with
  | zero => simp
  | succ n ih =>
    rw [List.range_succ, List.foldl_append]
    simp only [List.foldl_cons, List.foldl_nil, List.length_append, List.length_singleton]
    omega

set_option maxRecDepth 100000 in
/-- C20, the code at the failing input, next to what holds. For every loop count `n >= 1` the
two interrupt-campaign series and the three serial series of a completed timed campaign are
non-empty; the interrupt series of the timed campaign in the paired build is non-empty only for
`n >= 3`. With `n = 1` and `n = 2` on a channel that echoes, the paired build passes the empty
interrupt series to `calculateStatistics`, whose `front()` is then out of bounds. -/
theorem timed_interrupt_series_empty :
    (∀ (env : Nat → InterruptIter) (n : Nat), 1 ≤ n →
      (interruptLoop env n).1 ≠ [] ∧ (interruptLoop env n).2 ≠ []) ∧
    (∀ (paired : Bool) (env : Nat → TimedIter) (n : Nat) (s : TimedSeries), 1 ≤ n →
      timedLoop paired env n 0 (TimedSeries.mk [] [] [] []) = Except.ok s →
      s.timeOfWrite ≠ [] ∧ s.timeToRead ≠ [] ∧ s.timeTotal ≠ [] ∧
      (paired = true → (s.timeToInterrupt ≠ [] ↔ 3 ≤ n))) ∧
    timedSerialTest true (fun i => TimedIter.mk 1 1 (i % 256) ⟨0, 50000000 * i⟩
        ⟨0, 50000000 * i + 500000⟩ ⟨0, 50000000 * i + 3000000⟩ (50000000 * i + 1000000))
      (fun _ => true) 1 = Except.error OutOfBounds.front ∧
    timedSerialTest true (fun i => TimedIter.mk 1 1 (i % 256) ⟨0, 50000000 * i⟩
        ⟨0, 50000000 * i + 500000⟩ ⟨0, 50000000 * i + 3000000⟩ (50000000 * i + 1000000))
      (fun _ => true) 2 = Except.error OutOfBounds.front := by
  refine ⟨?_, ?_, rfl, rfl⟩
  · intro env n hn
    obtain ⟨h1, h2⟩ := interruptLoop_length env n
    constructor
    · intro e; rw [e] at h1; simp at h1; omega
    · intro e; rw [e] at h2; simp at h2; omega
  · intro paired env n s hn h
    have hp := timedLoop_ok_pass paired env n 0 _ s h
    have h3 := timedLoop_pass paired env n 0 (TimedSeries.mk [] [] [] []) hp
    rw [h] at h3
    injection h3 with h3
    subst h3
    have hne : List.range' 0 n ≠ [] := by
      intro e
      have := congrArg List.length e
      simp at this
      omega
    refine ⟨by simpa using hne, by simpa using hne, by simpa using hne, ?_⟩
    intro hpaired
    subst hpaired
    simp only [List.nil_append, ne_eq, List.map_eq_nil_iff, true_and]
    constructor
    · intro hne2
      by_contra hlt
      apply hne2
      rw [List.filter_eq_nil_iff]
      intro j hj
      simp only [List.mem_range'_1, Nat.zero_add] at hj
      have : j = 0 ∨ j = 1 := by omega
      rcases this with rfl | rfl <;> simp
    · intro h3 e
      rw [List.filter_eq_nil_iff] at e
      have := e 2 (by simp only [List.mem_range'_1]; omega)
      simp at this

end ArduinoLatency
